import Mathlib

/-!
# Life simulator step engine (`src/server.js`)

A shallow embedding of the simulation engine of `server.js` and the properties
of it that the specification states.

Modelling conventions.

* JavaScript numbers are modelled by exact rationals (`ℚ`) for money, ages and
  configuration values, and by naturals for the counters that the program only
  ever initialises to `0` or `1` and increments. The engine (`executeAction`,
  `committedState`, `step`) adds and subtracts exactly, where the program works
  in IEEE 754 doubles: the two agree as long as every value formed is a whole
  number below `2 ^ 53` in absolute value, and differ otherwise. The sums of
  money and the age are therefore also defined with every result rounded
  (`roundDouble`, `runLedgerWith`, `ageAfterYears`), and the properties
  that depend on the rounding are stated of these.
* A division by zero, which in the program gives `NaN` or an infinity, is not
  modelled (`x / 0 = 0` in `ℚ`); the properties of the pressure score carry
  hypotheses under which no divisor is zero.
* The process-wide `simulationState` object is the value `State`; each request
  handler is a function from the state before the request to the state after.
* A target object is a record whose derived fields may be absent
  (`Option`), as they are on the targets a client sends.
* `Array.prototype.sort` is a stable sort (ECMAScript 2019); it is modelled by
  the stable insertion sort `List.insertionSort`.
* Strings that are only formatted for display (the `reason` of a pressure
  info, the `message` of a finished response, the `description` of an action
  result) are left out of the records. Of each response only the part that
  is not the snapshot is modelled; the snapshot is `getClientState` of the
  state the handler leaves.
* Requests are handled one at a time; the only request handled while a `step`
  is suspended in an await is `pause`.
-/

namespace LifeSimulator

/-! ## Data model -/

/-- The run configuration sent by the client (`config`). -/
structure Config where
  startAge : ℚ
  deadlineAge : ℚ
  workIncome : ℚ
  dailyCost : ℚ
  gambleWinRate : ℚ
  gambleWinAmount : ℚ
  gambleLossAmount : ℚ
deriving DecidableEq

/-- A savings target. `completedAge`, `accumulatedAmount` and `remainingAmount`
are absent (`none`) until the program writes them. -/
structure Target where
  description : String
  amount : ℚ
  deadlineAge : ℚ
  completed : Bool
  completedAge : Option ℚ
  accumulatedAmount : Option ℚ
  remainingAmount : Option ℚ
deriving DecidableEq

/-- The `history` object of the state. -/
structure History where
  wins : ℕ
  losses : ℕ
  totalGambles : ℕ
  workDays : ℕ
  gambleDays : ℕ
deriving DecidableEq

/-- The `stats` object of the state. -/
structure Stats where
  totalDays : ℕ
  workCount : ℕ
  gambleCount : ℕ
  totalIncome : ℚ
  totalExpenses : ℚ
deriving DecidableEq

/-- The two normalised actions a decision can carry. -/
inductive Action where
  | work
  | gamble
deriving DecidableEq

/-- The value `makeAIDecision` returns. -/
structure Decision where
  action : Action
  reason : String
  isAI : Bool
deriving DecidableEq

/-- The value `executeAction` returns; `isWin` is absent for work. -/
structure ActionResult where
  income : ℚ
  netIncome : ℚ
  action : String
  isWin : Option Bool
deriving DecidableEq

/-- The summary of a completed target recorded in a log entry. -/
structure CompletedSummary where
  name : String
  amount : Option ℚ
deriving DecidableEq

/-- One entry of `logs`. -/
structure LogEntry where
  day : ℕ
  age : ℚ
  dayInYear : ℕ
  action : String
  income : ℚ
  dailyCost : ℚ
  netIncome : ℚ
  totalMoney : ℚ
  pressure : ℤ
  pressureEmoji : String
  pressureText : String
  decisionReason : String
  isAI : Bool
  yearPassed : Bool
  completedTarget : Option CompletedSummary
  stats : Stats
deriving DecidableEq

/-- The process-wide `simulationState`. `speed` is absent until `start`. -/
structure State where
  isRunning : Bool
  isPaused : Bool
  isWaitingForResume : Bool
  config : Option Config
  targets : List Target
  currentAge : ℚ
  currentDayInYear : ℕ
  dayCount : ℕ
  currentMoney : ℚ
  logs : List LogEntry
  history : History
  stats : Stats
  speed : Option ℚ
deriving DecidableEq

/-- The object `calculateRealPressure` returns (without the formatted
`reason`). -/
structure PressureInfo where
  pressure : ℤ
  emoji : String
  text : String
  currentTarget : Option Target
  remainingMoney : Option ℚ
  remainingDays : Option ℚ
  dailyRequired : Option ℚ
deriving DecidableEq

/-! ## Target accumulation (`getAccumulatedTargets`, lines 63-74) -/

/-- The order the comparator `(a, b) => a.deadlineAge - b.deadlineAge`
induces: `a` may stand before `b`. -/
def deadlineLE (a b : Target) : Prop := a.deadlineAge ≤ b.deadlineAge

instance deadlineLE_decidable : DecidableRel deadlineLE :=
  fun a b => inferInstanceAs (Decidable (a.deadlineAge ≤ b.deadlineAge))

instance deadlineLE_total : IsTotal Target deadlineLE :=
  ⟨fun a b => le_total a.deadlineAge b.deadlineAge⟩

instance deadlineLE_trans : IsTrans Target deadlineLE :=
  ⟨fun _ _ _ hab hbc => le_trans hab hbc⟩

/-- The copy-and-sort `[...targets].sort(...)`. -/
def sortByDeadline (targets : List Target) : List Target :=
  targets.insertionSort deadlineLE

/-- The `map` callback with its running variable `accumulated`: each target
is copied with both derived fields set to the running sum. -/
def accumulateFrom (accumulated : ℚ) : List Target → List Target
  | [] => []
  | t :: rest =>
    { t with accumulatedAmount := some (accumulated + t.amount),
             remainingAmount := some (accumulated + t.amount) }
      :: accumulateFrom (accumulated + t.amount) rest

/-- The function `getAccumulatedTargets`. -/
def getAccumulatedTargets (targets : List Target) : List Target :=
  accumulateFrom 0 (sortByDeadline targets)

/-- A target as a client sends it: no derived field present. -/
def rawTarget (description : String) (amount deadlineAge : ℚ) : Target :=
  { description := description, amount := amount, deadlineAge := deadlineAge,
    completed := false, completedAge := none, accumulatedAmount := none,
    remainingAmount := none }

/-- The read `t.accumulatedAmount`. The program reads the field only on the
outputs of `getAccumulatedTargets`, where it is present. -/
def Target.acc (t : Target) : ℚ := t.accumulatedAmount.getD 0

/-! ## Pressure (`calculateRealPressure`, lines 77-149) -/

/-- The chain of comparisons that sets `basePressure` (lines 108-115). -/
def basePressure (dailyRequired safeIncome : ℚ) : ℚ :=
  if dailyRequired ≤ 0 then 0
  else if dailyRequired ≤ safeIncome * (3 / 10) then 10
  else if dailyRequired ≤ safeIncome * (6 / 10) then 25
  else if dailyRequired ≤ safeIncome * (9 / 10) then 40
  else if dailyRequired ≤ safeIncome * (12 / 10) then 55
  else if dailyRequired ≤ safeIncome * (18 / 10) then 75
  else 90

/-- The successive overwrites of `emoji` and `text` (lines 130-135). -/
def pressureLabel (totalPressure : ℚ) : String × String :=
  let l0 : String × String := ("😊", "轻松")
  let l1 := if totalPressure > 15 then ("😌", "平稳") else l0
  let l2 := if totalPressure > 35 then ("🤔", "思考中") else l1
  let l3 := if totalPressure > 55 then ("😰", "焦虑") else l2
  let l4 := if totalPressure > 75 then ("🤯", "高压") else l3
  if totalPressure > 90 then ("💀", "绝望") else l4

/-- `Math.round`: the nearest integer, halves rounded up. -/
def jsRound (x : ℚ) : ℤ := ⌊x + 1 / 2⌋

/-- The value of `totalPressure` (lines 105-128) for the current target.
Divisions are exact; where the program would divide by zero the value is not
meaningful and the theorems exclude that case by hypothesis. -/
def totalPressure (s : State) (config : Config) (currentTarget : Target) : ℚ :=
  let remainingMoney := currentTarget.acc - s.currentMoney
  let remainingDays := (currentTarget.deadlineAge - s.currentAge) * 365 - s.currentDayInYear
  let dailyRequired := remainingMoney / remainingDays
  let safeIncome := config.workIncome - config.dailyCost
  let totalDaysForTarget := (currentTarget.deadlineAge - config.startAge) * 365
  let timeRatio := (s.dayCount : ℚ) / totalDaysForTarget
  let timePressure := timeRatio * 20
  let failRatio : ℚ :=
    if s.history.totalGambles > 0 then (s.history.losses : ℚ) / s.history.totalGambles else 0
  let failPressure := failRatio * 15
  let expectedProgress := timeRatio * currentTarget.acc
  let progressDeficit := max 0 ((expectedProgress - s.currentMoney) / currentTarget.acc)
  let progressPressure := progressDeficit * 25
  min 100 (basePressure dailyRequired safeIncome + timePressure + failPressure
    + progressPressure)

/-- The filter predicate of `activeTargets` (line 83). -/
def isActive (currentAge : ℚ) (t : Target) : Bool :=
  !t.completed && decide (t.deadlineAge ≥ currentAge)

/-- The function `calculateRealPressure`. The result is `none` when the
program throws a `TypeError` reading `config.workIncome` from a null
`config`. -/
def calculateRealPressure (s : State) : Option PressureInfo :=
  if s.targets.length = 0 then
    some { pressure := 0, emoji := "😊", text := "无目标", currentTarget := none,
           remainingMoney := none, remainingDays := none, dailyRequired := none }
  else
    let accTargets := getAccumulatedTargets s.targets
    let activeTargets := accTargets.filter (isActive s.currentAge)
    match activeTargets with
    | [] =>
      some { pressure := 0, emoji := "🎉", text := "全部完成", currentTarget := none,
             remainingMoney := none, remainingDays := none, dailyRequired := none }
    | currentTarget :: _ =>
      let remainingMoney := currentTarget.acc - s.currentMoney
      let remainingDays :=
        (currentTarget.deadlineAge - s.currentAge) * 365 - s.currentDayInYear
      if remainingDays ≤ 0 then
        some { pressure := 100, emoji := "💀", text := "目标已超时",
               currentTarget := some currentTarget,
               remainingMoney := some remainingMoney, remainingDays := some 0,
               dailyRequired := none }
      else
        match s.config with
        | none => none
        | some config =>
          let total := totalPressure s config currentTarget
          some { pressure := jsRound total,
                 emoji := (pressureLabel total).1, text := (pressureLabel total).2,
                 currentTarget := some currentTarget,
                 remainingMoney := some remainingMoney,
                 remainingDays := some remainingDays,
                 dailyRequired := some (remainingMoney / remainingDays) }

/-! ## Decision acquisition (`makeAIDecision`, lines 181-225) -/

/-- What one pass of the retry loop meets outside the program: the reply of
the external call, already normalised to a decision (`none` when the call
fails or its content holds no usable JSON object, so that the loop goes
round again), and whether a `pause` request is handled while the call or the
back-off is awaited. -/
structure Attempt where
  reply : Option Decision
  pauseArrives : Bool
deriving DecidableEq

/-- How `makeAIDecision` ends: it returns a decision, or rethrows
`Simulation paused`. -/
inductive DecisionOutcome where
  | decided (d : Decision)
  | cancelled
deriving DecidableEq

/-- The `pause` handler (lines 287-296). -/
def pause (s : State) : State := { s with isPaused := true }

/-- The retry loop of `makeAIDecision`, run against the attempts the
environment supplies. Each pass first reads `simulationState.isPaused`; the
state is threaded through because `pause` requests handled during an await
write it. `none`: the loop is still retrying when the supplied attempts are
used up. -/
def makeAIDecision : State → List Attempt → Option (DecisionOutcome × State)
  | s, [] => if s.isPaused then some (DecisionOutcome.cancelled, s) else none
  | s, a :: rest =>
    if s.isPaused then some (DecisionOutcome.cancelled, s)
    else
      let s1 := if a.pauseArrives then pause s else s
      match a.reply with
      | some d => some (DecisionOutcome.decided d, s1)
      | none => makeAIDecision s1 rest

/-! ## Action execution (`executeAction`, lines 228-256) -/

/-- The function `executeAction`; `random` is the value `Math.random()`
returns, drawn in the gamble branch only. -/
def executeAction (action : Action) (config : Config) (random : ℚ) : ActionResult :=
  match action with
  | Action.work =>
    { income := config.workIncome, netIncome := config.workIncome - config.dailyCost,
      action := "💼 打工", isWin := none }
  | Action.gamble =>
    if random * 100 < config.gambleWinRate then
      { income := config.gambleWinAmount,
        netIncome := config.gambleWinAmount - config.dailyCost,
        action := "🎰 赌博-赢!", isWin := some true }
    else
      { income := -config.gambleLossAmount,
        netIncome := -config.gambleLossAmount - config.dailyCost,
        action := "💸 赌博-输!", isWin := some false }

/-! ## Request handlers (lines 259-470) -/

/-- The state `resetState` installs (lines 39-60); also the initial state. -/
def resetState : State :=
  { isRunning := false, isPaused := false, isWaitingForResume := false,
    config := none, targets := [], currentAge := 0, currentDayInYear := 1,
    dayCount := 0, currentMoney := 0, logs := [],
    history := { wins := 0, losses := 0, totalGambles := 0, workDays := 0, gambleDays := 0 },
    stats := { totalDays := 0, workCount := 0, gambleCount := 0, totalIncome := 0,
               totalExpenses := 0 },
    speed := none }

/-- The `start` handler (lines 263-278), for a request that carries a config
and a target list. `speed || 500` takes 500 for an absent or zero speed. -/
def start (config : Config) (targets : List Target) (speed : Option ℚ) : State :=
  { resetState with
    isRunning := true
    isPaused := false
    isWaitingForResume := false
    config := some config
    targets := getAccumulatedTargets (targets.map fun t => { t with completed := false })
    currentAge := config.startAge
    speed := some (match speed with
      | some v => if v = 0 then 500 else v
      | none => 500) }

/-- The `reset` handler (lines 281-284). -/
def reset (_ : State) : State := resetState

/-- The target list `resume` builds from the supplied one (lines 308-312):
a supplied target whose description matches a completed stored target is
replaced by that stored target. -/
def mergeTargets (stored supplied : List Target) : List Target :=
  let oldCompleted := stored.filter fun t => t.completed
  supplied.map fun t =>
    match oldCompleted.find? fun o => o.description == t.description with
    | some old => old
    | none => { t with completed := false }

/-- The `resume` handler (lines 299-325). `none`: the program throws a
`TypeError` reading `startAge` of a null stored config, before any write. -/
def resume (s : State) (config : Option Config) (targets : Option (List Target)) :
    Option State :=
  let withConfig : Option State :=
    match config with
    | none => some s
    | some c =>
      match s.config with
      | none => none
      | some old => some { s with config := some { c with startAge := old.startAge } }
  match withConfig with
  | none => none
  | some s1 =>
    let s2 : State :=
      match targets with
      | none => s1
      | some ts => { s1 with targets := getAccumulatedTargets (mergeTargets s1.targets ts) }
    some { s2 with isPaused := false, isWaitingForResume := false, isRunning := true }

/-- The loop over `accTargets` (lines 408-415): the array after the loop and
`completedTarget`. The first target that is not completed, is covered by the
money and is not past its deadline is marked; the loop then breaks. -/
def completionScan (currentMoney currentAge : ℚ) : List Target → List Target × Option Target
  | [] => ([], none)
  | target :: rest =>
    if !target.completed && decide (currentMoney ≥ target.acc)
        && decide (currentAge ≤ target.deadlineAge) then
      let marked := { target with completed := true, completedAge := some currentAge }
      (marked :: rest, some marked)
    else
      ((completionScan currentMoney currentAge rest).1.cons target,
        (completionScan currentMoney currentAge rest).2)

/-- The body a `step` request answers with. -/
inductive StepResponse where
  /-- The body `success: false, paused: true` with its message. -/
  | rejected (message : String)
  /-- The body `success: true, finished: true` with its reason. -/
  | finished (reason : String)
  /-- The body `success: true, finished: false` with the log entry and `paused`. -/
  | day (log : LogEntry) (paused : Bool)
deriving DecidableEq

/-- How the handling of a `step` request ends. -/
inductive StepOutcome where
  /-- A `TypeError` on a null `config`, thrown before any write. -/
  | threw
  /-- The retry loop has used up the supplied attempts and is still waiting. -/
  | pending
  /-- The response sent and the state left behind. -/
  | done (response : StepResponse) (state : State)
deriving DecidableEq

/-- The writes of `step` after the decision is obtained (lines 370-449), on
the state `s` as the awaits left it: the state written and the log entry
pushed. The sums of lines 374, 375, 386 and 401 are exact here; the program
rounds each to a double (see `commitLedgerWith` and `ageAfterYears`). -/
def committedState (s : State) (config : Config) (pressureInfo : PressureInfo)
    (decision : Decision) (random : ℚ) : State × LogEntry :=
  let result := executeAction decision.action config random
  -- lines 373-375
  let stats1 : Stats :=
    { s.stats with
      totalDays := s.stats.totalDays + 1
      totalIncome := s.stats.totalIncome + result.income
      totalExpenses := s.stats.totalExpenses + config.dailyCost }
  -- lines 377-383
  let history1 : History :=
    if decision.action = Action.work then { s.history with workDays := s.history.workDays + 1 }
    else { s.history with gambleDays := s.history.gambleDays + 1 }
  let stats2 : Stats :=
    if decision.action = Action.work then { stats1 with workCount := stats1.workCount + 1 }
    else { stats1 with gambleCount := stats1.gambleCount + 1 }
  -- lines 386-388
  let currentMoney := s.currentMoney + result.netIncome
  let dayCount := s.dayCount + 1
  let dayInYear1 := s.currentDayInYear + 1
  -- lines 391-395
  let history2 : History :=
    if decision.action = Action.gamble then
      if result.isWin = some true then
        { history1 with totalGambles := history1.totalGambles + 1, wins := history1.wins + 1 }
      else
        { history1 with totalGambles := history1.totalGambles + 1,
                        losses := history1.losses + 1 }
    else history1
  -- lines 398-403
  let yearPassed : Bool := decide (dayInYear1 > 365)
  let currentDayInYear := if dayInYear1 > 365 then 1 else dayInYear1
  let currentAge := if dayInYear1 > 365 then s.currentAge + 1 else s.currentAge
  -- lines 406-415: the loop writes to the copies `getAccumulatedTargets` made;
  -- `state.targets` is not assigned
  let accTargets := getAccumulatedTargets s.targets
  let completedTarget := (completionScan currentMoney currentAge accTargets).2
  -- lines 421-444
  let logEntry : LogEntry :=
    { day := dayCount, age := currentAge, dayInYear := currentDayInYear,
      action := result.action, income := result.income, dailyCost := config.dailyCost,
      netIncome := result.netIncome, totalMoney := currentMoney,
      pressure := pressureInfo.pressure, pressureEmoji := pressureInfo.emoji,
      pressureText := pressureInfo.text, decisionReason := decision.reason,
      isAI := decision.isAI, yearPassed := yearPassed,
      completedTarget := completedTarget.map fun t =>
        { name := t.description, amount := t.accumulatedAmount },
      stats := stats2 }
  ({ s with
      stats := stats2
      history := history2
      currentMoney := currentMoney
      dayCount := dayCount
      currentDayInYear := currentDayInYear
      currentAge := currentAge
      logs := s.logs ++ [logEntry]
      -- lines 447-449
      isWaitingForResume := if s.isPaused then true else s.isWaitingForResume },
    logEntry)

/-- The part of `step` after the decision is obtained (lines 370-468): the
writes of `committedState`, then the response. `allCompleted` (line 418) is
read from `state.targets`. -/
def commitDay (s : State) (config : Config) (pressureInfo : PressureInfo)
    (decision : Decision) (random : ℚ) : StepResponse × State :=
  let s1 := (committedState s config pressureInfo decision random).1
  let logEntry := (committedState s config pressureInfo decision random).2
  let allCompleted := s.targets.all fun t => t.completed
  -- lines 451-468
  if allCompleted then
    (StepResponse.finished "success", { s1 with isRunning := false })
  else
    (StepResponse.day logEntry (s1.isPaused && s1.isWaitingForResume), s1)

/-- The `step` handler (lines 328-469). `attempts` is what the retry loop
meets, `random` the value `Math.random()` returns if it is called. -/
def step (attempts : List Attempt) (random : ℚ) (s : State) : StepOutcome :=
  if !s.isRunning || (s.isPaused && s.isWaitingForResume) then
    StepOutcome.done (StepResponse.rejected "已暂停，等待继续") s
  else
    match s.config with
    | none => StepOutcome.threw
    | some config =>
      if s.currentAge ≥ config.deadlineAge then
        StepOutcome.done (StepResponse.finished "timeout") { s with isRunning := false }
      else
        match calculateRealPressure s with
        | none => StepOutcome.threw
        | some pressureInfo =>
          match makeAIDecision s attempts with
          | none => StepOutcome.pending
          | some (DecisionOutcome.cancelled, s1) =>
            StepOutcome.done (StepResponse.rejected "模拟已暂停") s1
          | some (DecisionOutcome.decided decision, s1) =>
            StepOutcome.done (commitDay s1 config pressureInfo decision random).1
              (commitDay s1 config pressureInfo decision random).2

/-- The snapshot `getClientState` builds (lines 472-489). -/
structure ClientState where
  isRunning : Bool
  isPaused : Bool
  isWaitingForResume : Bool
  dayCount : ℕ
  currentAge : ℚ
  currentMoney : ℚ
  currentDayInYear : ℕ
  targets : List Target
  logs : List LogEntry
  pressure : PressureInfo
  stats : Stats
  history : History
deriving DecidableEq

/-- The function `getClientState`; `none` when `calculateRealPressure`
throws. `logs.slice(-30)` keeps the last 30 entries. -/
def getClientState (s : State) : Option ClientState :=
  (calculateRealPressure s).map fun pressureInfo =>
    { isRunning := s.isRunning, isPaused := s.isPaused,
      isWaitingForResume := s.isWaitingForResume, dayCount := s.dayCount,
      currentAge := s.currentAge, currentMoney := s.currentMoney,
      currentDayInYear := s.currentDayInYear, targets := s.targets,
      logs := s.logs.drop (s.logs.length - 30), pressure := pressureInfo,
      stats := s.stats, history := s.history }

/-! ## Reading the outcome of a `step` -/

/-- The state a finished request leaves, if it finished. -/
def StepOutcome.finalState : StepOutcome → Option State
  | StepOutcome.done _ s => some s
  | _ => none

/-- The response of a finished request, if it finished. -/
def StepOutcome.response : StepOutcome → Option StepResponse
  | StepOutcome.done r _ => some r
  | _ => none

/-- Whether a response is the body `finished: true` with the given reason. -/
def StepResponse.isFinished (reason : String) : StepResponse → Bool
  | StepResponse.finished r => r == reason
  | _ => false

/-- The completed-target summary of the log entry a response carries, if any. -/
def StepResponse.completedTarget : StepResponse → Option CompletedSummary
  | StepResponse.day log _ => log.completedTarget
  | _ => none

/-! ## Reachable states -/

/-- The states the process can be in: the initial state and every state a
handled request leaves. A request whose handler throws leaves the state as it
was; `Math.random()` returns a value in `[0, 1)`. -/
inductive Reachable : State → Prop where
  | init : Reachable resetState
  | start (s : State) (config : Config) (targets : List Target) (speed : Option ℚ) :
      Reachable s → Reachable (start config targets speed)
  | reset (s : State) : Reachable s → Reachable (reset s)
  | pause (s : State) : Reachable s → Reachable (pause s)
  | resume (s s1 : State) (config : Option Config) (targets : Option (List Target)) :
      Reachable s → resume s config targets = some s1 → Reachable s1
  | step (s s1 : State) (attempts : List Attempt) (random : ℚ) (response : StepResponse) :
      Reachable s → 0 ≤ random → random < 1 →
      step attempts random s = StepOutcome.done response s1 → Reachable s1

/-! ## Sample inputs -/

/-- The configuration of the specification's scenario. -/
def sampleConfig : Config :=
  { startAge := 20, deadlineAge := 30, workIncome := 200, dailyCost := 50,
    gambleWinRate := 50, gambleWinAmount := 300, gambleLossAmount := 200 }

/-- A reply of the external service that chooses work. -/
def workDecision : Decision := { action := Action.work, reason := "稳", isAI := true }

/-- An attempt that succeeds with `workDecision` while no pause arrives. -/
def workAttempt : Attempt := { reply := some workDecision, pauseArrives := false }

/-- The state after `start` with `sampleConfig` and one target of 100 due at 25. -/
def startedOne : State := start sampleConfig [rawTarget "house" 100 25] none

/-- Two targets of the same deadline, the input of the counterexample to the
sum over all targets due no later. -/
def tiedTargets : List Target := [rawTarget "car" 100 25, rawTarget "house" 200 25]

/-- The state `resume` leaves when `tiedTargets` is supplied to `startedOne`. -/
def resumedTied : State := { startedOne with targets := getAccumulatedTargets tiedTargets }

/-- A state that is idle after a reset, with the flags at rest. -/
def idleState : State := resetState

/-- A running state that has reached the deadline age of `sampleConfig`. -/
def expiredState : State := { startedOne with currentAge := 30, dayCount := 3650 }

/-- An attempt that fails while a `pause` request is handled. -/
def failedPausedAttempt : Attempt := { reply := none, pauseArrives := true }

/-- An attempt that fails while no `pause` request arrives. -/
def failedAttempt : Attempt := { reply := none, pauseArrives := false }

/-- An attempt that succeeds with `workDecision` while a `pause` request is
handled. -/
def workPausedAttempt : Attempt := { reply := some workDecision, pauseArrives := true }

/-- A state in the middle of a run: age 22, day 100 of the year, 829 days
in, 5 losses out of 8 gambles, 20000 saved towards a target of 36500 due at 25. -/
def midRunState : State :=
  { start sampleConfig [rawTarget "house" 36500 25] none with
    currentAge := 22, currentDayInYear := 100, dayCount := 829, currentMoney := 20000,
    history := { wins := 3, losses := 5, totalGambles := 8, workDays := 821, gambleDays := 8 } }

/-! ## Runs of committed days -/

/-- Whether a response reports a committed day: the normal-day response, or
the `finished` response of reason `success` (the timeout and the rejections
commit nothing). -/
def StepResponse.committed : StepResponse → Bool
  | StepResponse.day _ _ => true
  | StepResponse.finished reason => reason == "success"
  | StepResponse.rejected _ => false

/-- A `step` call on `s` commits a day on a decision of action `a` and leaves
`s2`; `Math.random()` returns a value in `[0, 1)`. -/
def CommitsDay (a : Action) (s s2 : State) : Prop :=
  ∃ (attempts : List Attempt) (random : ℚ) (response : StepResponse) (d : Decision)
    (s1 : State),
    0 ≤ random ∧ random < 1
    ∧ step attempts random s = StepOutcome.done response s2
    ∧ response.committed = true
    ∧ makeAIDecision s attempts = some (DecisionOutcome.decided d, s1)
    ∧ d.action = a

/-- `DayRun a s n s2`: `n` successive `step` calls, the first on `s`, each
commit a day on a decision of action `a`, and leave `s2`. -/
inductive DayRun (a : Action) (s : State) : ℕ → State → Prop where
  | zero : DayRun a s 0 s
  | next (n : ℕ) (s1 s2 : State) :
      DayRun a s n s1 → CommitsDay a s1 s2 → DayRun a s (n + 1) s2

/-- The run of `n` `step` calls that each meet the one attempt `attempt` and
the draw `random`; `none` as soon as a call does not commit a day. -/
def runDays (attempt : Attempt) (random : ℚ) : ℕ → State → Option State
  | 0, s => some s
  | n + 1, s =>
    match runDays attempt random n s with
    | none => none
    | some s1 =>
      match step [attempt] random s1 with
      | StepOutcome.done response s2 => if response.committed then some s2 else none
      | _ => none

/-- The states of a run: the state `start` leaves and every state a handled
`step`, `pause` or `resume` request leaves after it. -/
inductive RunState : State → Prop where
  | start (config : Config) (targets : List Target) (speed : Option ℚ) :
      RunState (start config targets speed)
  | pause (s : State) : RunState s → RunState (pause s)
  | resume (s s1 : State) (config : Option Config) (targets : Option (List Target)) :
      RunState s → resume s config targets = some s1 → RunState s1
  | step (s s1 : State) (attempts : List Attempt) (random : ℚ) (response : StepResponse) :
      RunState s → 0 ≤ random → random < 1 →
      step attempts random s = StepOutcome.done response s1 → RunState s1

/-- The state after `start` with the scenario of the specification: the
house of 36500 due at 25. -/
def startedHouse : State := start sampleConfig [rawTarget "house" 36500 25] none

/-- A reply of the external service that chooses to gamble. -/
def gambleDecision : Decision := { action := Action.gamble, reason := "搏", isAI := true }

/-- An attempt that succeeds with `gambleDecision` while no pause arrives. -/
def gambleAttempt : Attempt := { reply := some gambleDecision, pauseArrives := false }

/-- The configuration of the scenario with a gamble that always wins. -/
def certainWinConfig : Config := { sampleConfig with gambleWinRate := 100 }

/-- The state after `start` with `certainWinConfig` and the house target. -/
def startedCertain : State := start certainWinConfig [rawTarget "house" 36500 25] none

/-- The state `resume` leaves when it is requested, with no config and no
targets, in the initial state. -/
def resumedIdle : State := { resetState with isRunning := true }

/-- A config a client supplies on `resume`, with a start age of its own. -/
def resumeConfig : Config :=
  { startAge := 40, deadlineAge := 35, workIncome := 250, dailyCost := 60,
    gambleWinRate := 30, gambleWinAmount := 500, gambleLossAmount := 100 }

/-- A state in the final year of its target: age 25, day 10, the house of
36500 due at 25 not completed, 30000 saved. -/
def finalYearState : State :=
  { startedHouse with currentAge := 25, currentDayInYear := 10, dayCount := 1834,
                      currentMoney := 30000 }

/-- The label the fixed thresholds of the specification give to a value:
relaxed up to 15, steady up to 35, reflective up to 55, anxious up to 75,
high-pressure up to 90, despair above. -/
def bandLabel (x : ℚ) : String :=
  if x ≤ 15 then "轻松"
  else if x ≤ 35 then "平稳"
  else if x ≤ 55 then "思考中"
  else if x ≤ 75 then "焦虑"
  else if x ≤ 90 then "高压"
  else "绝望"

/-- A state whose unrounded total pressure lies just above 15: age 21, day
120, 484 days in, no gamble yet, 10000 saved towards the house of 36500 due
at 25. -/
def labelGapState : State :=
  { startedHouse with currentAge := 21, currentDayInYear := 120, dayCount := 484,
                      currentMoney := 10000 }

/-- A state whose earliest target, the car due at 21, has expired
uncompleted while the house due at 25 is still open: age 22, day 100. -/
def expiredFirstState : State :=
  { start sampleConfig [rawTarget "car" 100 21, rawTarget "house" 36500 25] none with
    currentAge := 22, currentDayInYear := 100, dayCount := 829, currentMoney := 50 }

/-- A state all of whose targets have expired uncompleted: age 26. -/
def allExpiredState : State :=
  { start sampleConfig [rawTarget "car" 100 21, rawTarget "house" 36500 25] none with
    currentAge := 26, currentDayInYear := 1, dayCount := 2190, currentMoney := 50 }

/-- A config whose deadline age falls in the middle of a year. -/
def halfYearConfig : Config := { sampleConfig with deadlineAge := 41 / 2 }

/-- The state after `start` with `halfYearConfig` and the house target. -/
def startedHalf : State := start halfYearConfig [rawTarget "house" 36500 25] none

/-! ## The sums in IEEE doubles

The engine above adds in exact rationals. The program adds IEEE 754 doubles
(lines 232, 241, 249, 374, 375, 386, 401); the two agree on whole numbers
below `2 ^ 53`. The definitions below replay those lines with every result
rounded by a function `fl`: `id` gives the exact sums of the engine,
`roundDouble` the sums of the program. -/

/-- The number of binary digits of `p` (with enough fuel). -/
def bitLength : ℕ → ℕ → ℕ
  | 0, _ => 0
  | fuel + 1, p => if p = 0 then 0 else bitLength fuel (p / 2) + 1

/-- The binary exponent of a non-zero rational `x`: the `e` with
`2 ^ e <= |x| < 2 ^ (e + 1)`. -/
def binaryExponent (x : ℚ) : ℤ :=
  let e0 : ℤ := (bitLength 2200 x.num.natAbs : ℤ) - (bitLength 2200 x.den : ℤ)
  if (2 : ℚ) ^ e0 ≤ |x| then e0 else e0 - 1

/-- The nearest integer, ties to the even one. -/
def roundHalfEven (m : ℚ) : ℤ :=
  if m - ⌊m⌋ < 1 / 2 then ⌊m⌋
  else if m - ⌊m⌋ > 1 / 2 then ⌊m⌋ + 1
  else if ⌊m⌋ % 2 = 0 then ⌊m⌋ else ⌊m⌋ + 1

/-- The IEEE 754 double nearest to `x` (53 significant binary digits, round to
nearest, ties to even), for magnitudes in the normal range of doubles. It is
the value a number literal denotes and the result of `+`, `-`, `*` and `/`
on doubles whose exact result is `x`. -/
def roundDouble (x : ℚ) : ℚ :=
  if x = 0 then 0
  else (roundHalfEven (x / 2 ^ (binaryExponent x - 52)) : ℚ) * 2 ^ (binaryExponent x - 52)

/-- The result of `executeAction` (lines 229-255) given the outcome `isWin`
of the test of line 237, every difference rounded by `fl`. -/
def actionResultWith (fl : ℚ → ℚ) (action : Action) (config : Config) (isWin : Bool) :
    ActionResult :=
  match action with
  | Action.work =>
    { income := config.workIncome, netIncome := fl (config.workIncome - config.dailyCost),
      action := "💼 打工", isWin := none }
  | Action.gamble =>
    if isWin then
      { income := config.gambleWinAmount,
        netIncome := fl (config.gambleWinAmount - config.dailyCost),
        action := "🎰 赌博-赢!", isWin := some true }
    else
      { income := -config.gambleLossAmount,
        netIncome := fl (-config.gambleLossAmount - config.dailyCost),
        action := "💸 赌博-输!", isWin := some false }

/-- What a committed day depends on, for the sums: the config in effect, the
action decided and the outcome of the gamble. -/
structure DayInput where
  config : Config
  action : Action
  isWin : Bool
deriving DecidableEq

/-- The three sums of money the state keeps. -/
structure Ledger where
  currentMoney : ℚ
  totalIncome : ℚ
  totalExpenses : ℚ
deriving DecidableEq

/-- The sums of a state. -/
def ledgerOf (s : State) : Ledger :=
  { currentMoney := s.currentMoney, totalIncome := s.stats.totalIncome,
    totalExpenses := s.stats.totalExpenses }

/-- The sums `start` leaves (lines 49, 56, 57). -/
def startLedger : Ledger := { currentMoney := 0, totalIncome := 0, totalExpenses := 0 }

/-- The writes of a committed day to the sums (lines 374, 375, 386), every
sum rounded by `fl`. -/
def commitLedgerWith (fl : ℚ → ℚ) (day : DayInput) (l : Ledger) : Ledger :=
  let result := actionResultWith fl day.action day.config day.isWin
  { totalIncome := fl (l.totalIncome + result.income),
    totalExpenses := fl (l.totalExpenses + day.config.dailyCost),
    currentMoney := fl (l.currentMoney + result.netIncome) }

/-- The sums after the committed days `days`, in order, from the sums `l`. -/
def runLedgerWith (fl : ℚ → ℚ) (l : Ledger) (days : List DayInput) : Ledger :=
  days.foldl (fun acc day => commitLedgerWith fl day acc) l

/-- The age after `k` year ends (line 401, `state.currentAge++`), every sum
rounded by `fl`. -/
def ageAfterYears (fl : ℚ → ℚ) (startAge : ℚ) : ℕ → ℚ
  | 0 => startAge
  | k + 1 => fl (ageAfterYears fl startAge k + 1)

/-- A config whose four amounts of money are whole numbers of absolute value
at most `B`. -/
def WholeAmounts (B : ℕ) (config : Config) : Prop :=
  ∃ W C G L : ℤ, config.workIncome = W ∧ config.dailyCost = C
    ∧ config.gambleWinAmount = G ∧ config.gambleLossAmount = L
    ∧ |W| ≤ B ∧ |C| ≤ B ∧ |G| ≤ B ∧ |L| ≤ B

/-- The states of a run whose config is never replaced: the state `start`
leaves with `config` and every state a handled `step`, `pause` or `resume`
without a config leaves after it. -/
inductive FixedRun (config : Config) : State → Prop where
  | start (targets : List Target) (speed : Option ℚ) :
      FixedRun config (start config targets speed)
  | pause (s : State) : FixedRun config s → FixedRun config (pause s)
  | resume (s s1 : State) (targets : Option (List Target)) :
      FixedRun config s → resume s none targets = some s1 → FixedRun config s1
  | step (s s1 : State) (attempts : List Attempt) (random : ℚ) (response : StepResponse) :
      FixedRun config s → 0 ≤ random → random < 1 →
      step attempts random s = StepOutcome.done response s1 → FixedRun config s1

/-- The sample config with the work income `200.1`, as the double the program
holds for it. -/
def fractionalConfig : Config := { sampleConfig with workIncome := roundDouble (2001 / 10) }

/-- A work day under `fractionalConfig`. -/
def fractionalWorkDay : DayInput :=
  { config := fractionalConfig, action := Action.work, isWin := false }

/-- The sample config with work income `0.3` and daily cost `0.1`, as the
doubles the program holds for them. -/
def tenthsConfig : Config :=
  { sampleConfig with workIncome := roundDouble (3 / 10), dailyCost := roundDouble (1 / 10) }

/-- A work day under `tenthsConfig`. -/
def tenthsWorkDay : DayInput := { config := tenthsConfig, action := Action.work, isWin := false }

/-- A work day under `sampleConfig`. -/
def sampleWorkDay : DayInput := { config := sampleConfig, action := Action.work, isWin := false }

/-- A lost gamble under `sampleConfig`. -/
def sampleLostDay : DayInput :=
  { config := sampleConfig, action := Action.gamble, isWin := false }

/-- A run of one year with `sampleConfig` cut to the deadline age 21. -/
def oneYearConfig : Config := { sampleConfig with deadlineAge := 21 }

/-- The state after `start` with `oneYearConfig` and the house target. -/
def startedOneYear : State := start oneYearConfig [rawTarget "house" 36500 25] none

/-- The day a `step` request commits, if it commits one (lines 328-368 decide
whether it does): the config in effect, the action decided and the outcome of
the test of line 237 (which is read for a gamble only). -/
def committedDay (attempts : List Attempt) (random : ℚ) (s : State) : Option DayInput :=
  if !s.isRunning || (s.isPaused && s.isWaitingForResume) then none
  else
    match s.config with
    | none => none
    | some config =>
      if s.currentAge ≥ config.deadlineAge then none
      else
        match calculateRealPressure s with
        | none => none
        | some _ =>
          match makeAIDecision s attempts with
          | none => none
          | some (DecisionOutcome.cancelled, _) => none
          | some (DecisionOutcome.decided decision, _) =>
            some { config := config, action := decision.action,
                   isWin := decide (random * 100 < config.gambleWinRate) }

/-- The states of a run in which every config supplied, at `start` and on
`resume`, has whole-number amounts of absolute value at most `B`, each with
the days the run has committed so far, in order. -/
inductive WholeTrace (B : ℕ) : State → List DayInput → Prop where
  | start (config : Config) (targets : List Target) (speed : Option ℚ) :
      WholeAmounts B config → WholeTrace B (start config targets speed) []
  | pause (s : State) (days : List DayInput) :
      WholeTrace B s days → WholeTrace B (pause s) days
  | resume (s s1 : State) (config : Option Config) (targets : Option (List Target))
      (days : List DayInput) :
      WholeTrace B s days → (∀ c, config = some c → WholeAmounts B c) →
      resume s config targets = some s1 → WholeTrace B s1 days
  | step (s s1 : State) (attempts : List Attempt) (random : ℚ) (response : StepResponse)
      (days : List DayInput) :
      WholeTrace B s days → 0 ≤ random → random < 1 →
      step attempts random s = StepOutcome.done response s1 →
      WholeTrace B s1 (days ++ (committedDay attempts random s).toList)

/-! ## Properties of target accumulation -/

theorem accumulateFrom_length (a : ℚ) (l : List Target) :
    (accumulateFrom a l).length = l.length := by
  induction l generalizing a with
  | nil => rfl
  | cons t rest ih => simp [accumulateFrom, ih]

/-- The element at position `i` of the annotated list is the element at
position `i` of the sorted list with the running sum written to both derived
fields. -/
theorem accumulateFrom_getElem? (a : ℚ) (l : List Target) (i : ℕ) :
    (accumulateFrom a l)[i]? = (l[i]?).map fun t =>
      { t with accumulatedAmount := some (a + ((l.take (i + 1)).map fun u => u.amount).sum),
               remainingAmount := some (a + ((l.take (i + 1)).map fun u => u.amount).sum) } := by
  induction l generalizing a i with
  | nil => simp [accumulateFrom]
  | cons t rest ih =>
    cases i with
    | zero => simp [accumulateFrom]
    | succ n =>
      have htake : (t :: rest).take (n + 1 + 1) = t :: rest.take (n + 1) := rfl
      rw [htake]
      simp only [accumulateFrom, List.getElem?_cons_succ, ih,
        List.map_cons, List.sum_cons, add_assoc]

/-- Stability of the insertion: the targets of any one deadline keep their
relative order, the inserted one standing first among them. -/
theorem filter_orderedInsert (d : ℚ) (a : Target) (l : List Target) :
    (l.orderedInsert deadlineLE a).filter (fun t => decide (t.deadlineAge = d))
      = (a :: l).filter (fun t => decide (t.deadlineAge = d)) := by
  induction l with
  | nil => simp
  | cons b rest ih =>
    by_cases hab : deadlineLE a b
    · simp [List.orderedInsert, hab]
    · have hlt : b.deadlineAge < a.deadlineAge := not_le.mp hab
      have hstep : (b :: rest).orderedInsert deadlineLE a = b :: rest.orderedInsert deadlineLE a := by
        simp [List.orderedInsert, hab]
      rw [hstep, List.filter_cons, ih]
      by_cases had : a.deadlineAge = d
      · have hbd : b.deadlineAge ≠ d := fun h => by rw [h, had] at hlt; exact lt_irrefl _ hlt
        simp [List.filter_cons, had, hbd]
      · simp [List.filter_cons, had]

theorem filter_sortByDeadline (d : ℚ) (l : List Target) :
    (sortByDeadline l).filter (fun t => decide (t.deadlineAge = d))
      = l.filter (fun t => decide (t.deadlineAge = d)) := by
  induction l with
  | nil => rfl
  | cons a rest ih =>
    show ((List.insertionSort deadlineLE rest).orderedInsert deadlineLE a).filter _ = _
    rw [filter_orderedInsert, List.filter_cons, List.filter_cons]
    unfold sortByDeadline at ih
    rw [ih]

theorem sortByDeadline_perm (l : List Target) : (sortByDeadline l).Perm l :=
  List.perm_insertionSort deadlineLE l

theorem sortByDeadline_sorted (l : List Target) : (sortByDeadline l).Sorted deadlineLE :=
  List.sorted_insertionSort deadlineLE l

/-- C5. `getAccumulatedTargets` sorts a copy of its input and annotates it:
there is a list `sorted` that is a permutation of the input, ascending in
`deadlineAge`, with the targets of every one deadline in input order (stable),
such that the output has the same length and its `i`-th element is the `i`-th
element of `sorted`, all fields kept, with `accumulatedAmount` and
`remainingAmount` both set to the sum of `amount` over elements `0..i` of
`sorted`. (The input is a value; the function builds its result from a copy.) -/
theorem getAccumulatedTargets_sorted_running_sum (targets : List Target) :
    ∃ sorted : List Target,
      sorted.Perm targets ∧
      sorted.Sorted (fun a b => a.deadlineAge ≤ b.deadlineAge) ∧
      (∀ d : ℚ, sorted.filter (fun t => decide (t.deadlineAge = d))
        = targets.filter (fun t => decide (t.deadlineAge = d))) ∧
      (getAccumulatedTargets targets).length = targets.length ∧
      ∀ i : ℕ, (getAccumulatedTargets targets)[i]? = (sorted[i]?).map fun t =>
        { t with
          accumulatedAmount := some (((sorted.take (i + 1)).map fun u => u.amount).sum)
          remainingAmount := some (((sorted.take (i + 1)).map fun u => u.amount).sum) } := by
  refine ⟨sortByDeadline targets, sortByDeadline_perm targets, sortByDeadline_sorted targets,
    fun d => filter_sortByDeadline d targets, ?_, fun i => ?_⟩
  · rw [getAccumulatedTargets, accumulateFrom_length]
    exact (sortByDeadline_perm targets).length_eq
  · rw [getAccumulatedTargets, accumulateFrom_getElem?]
    simp only [zero_add]

theorem accumulateFrom_map_deadline (a : ℚ) (l : List Target) :
    (accumulateFrom a l).map (fun t => t.deadlineAge) = l.map (fun t => t.deadlineAge) := by
  induction l generalizing a with
  | nil => rfl
  | cons t rest ih => simp [accumulateFrom, ih]

theorem accumulateFrom_take (a : ℚ) (l : List Target) (n : ℕ) :
    (accumulateFrom a l).take n = accumulateFrom a (l.take n) := by
  induction l generalizing a n with
  | nil => simp [accumulateFrom]
  | cons t rest ih =>
    cases n with
    | zero => simp [accumulateFrom]
    | succ n => simp [accumulateFrom, ih]

/-- Filtering a prefix gives a prefix of the filtered list. -/
theorem filter_take_eq {α : Type} (p : α → Bool) (l : List α) (n : ℕ) :
    (l.take n).filter p = (l.filter p).take ((l.take n).countP p) := by
  induction l generalizing n with
  | nil => simp
  | cons a rest ih =>
    cases n with
    | zero => simp
    | succ n =>
      by_cases hp : p a = true
      · simp [List.take_succ_cons, List.filter_cons, List.countP_cons, hp, ih n]
      · simp [List.take_succ_cons, List.filter_cons, List.countP_cons, hp, ih n]

/-- A list whose deadlines are all at most `d` splits, for its sum of amounts,
into the targets before `d` and the targets at `d`. -/
theorem sum_amount_split (d : ℚ) (l : List Target) (h : ∀ t ∈ l, t.deadlineAge ≤ d) :
    (l.map fun t => t.amount).sum
      = ((l.filter fun t => decide (t.deadlineAge < d)).map fun t => t.amount).sum
        + ((l.filter fun t => decide (t.deadlineAge = d)).map fun t => t.amount).sum := by
  induction l with
  | nil => simp
  | cons a rest ih =>
    have hrest := ih (fun t ht => h t (List.mem_cons_of_mem _ ht))
    have ha : a.deadlineAge ≤ d := h a (List.mem_cons_self _ _)
    rcases lt_or_eq_of_le ha with hlt | heq
    · have hne : a.deadlineAge ≠ d := ne_of_lt hlt
      simp only [List.filter_cons, hlt, hne, decide_True, decide_False, if_true,
        Bool.false_eq_true, if_false, List.map_cons, List.sum_cons]
      rw [hrest]; ring
    · have hnlt : ¬ a.deadlineAge < d := by rw [heq]; exact lt_irrefl _
      simp only [List.filter_cons, hnlt, heq, lt_irrefl, decide_True, decide_False, if_true,
        Bool.false_eq_true, if_false, List.map_cons, List.sum_cons]
      rw [hrest]; ring

/-- In the sorted list, the targets up to position `i` are due no later than
the one at `i`, and those after it no earlier. -/
theorem sorted_split_at (S : List Target) (hS : S.Sorted deadlineLE) (i : ℕ) (u : Target)
    (hu : S[i]? = some u) :
    (∀ x ∈ S.take (i + 1), x.deadlineAge ≤ u.deadlineAge)
      ∧ (∀ y ∈ S.drop (i + 1), u.deadlineAge ≤ y.deadlineAge) := by
  obtain ⟨hi, hget⟩ := List.getElem?_eq_some_iff.mp hu
  have hdrop : u ∈ S.drop i := by
    rw [List.drop_eq_getElem_cons hi, hget]; exact List.mem_cons_self _ _
  have htake : u ∈ S.take (i + 1) := by
    rw [List.take_succ, hu]; simp
  constructor
  · intro x hx
    rw [List.take_succ, hu] at hx
    rcases List.mem_append.mp hx with hx | hx
    · exact hS.rel_of_mem_take_of_mem_drop hx hdrop
    · have : x = u := by simpa using hx
      rw [this]
  · intro y hy
    exact hS.rel_of_mem_take_of_mem_drop htake hy

/-- C6, counterexample. With two targets due at 25, of 100 and 200, the first
output target carries 100, not the sum 300 over all input targets due at or
before 25. -/
theorem accumulated_not_sum_over_deadline_le :
    ¬ ∀ t ∈ getAccumulatedTargets tiedTargets,
        t.accumulatedAmount = some (((tiedTargets.filter
          fun u => decide (u.deadlineAge ≤ t.deadlineAge)).map fun u => u.amount).sum) := by
  decide!

/-- C6, amended. For the target `t` at position `i` of the output,
`accumulatedAmount` is the sum of `amount` over the input targets due strictly
before `t`, plus the amounts of the first `k` input targets that share the
deadline of `t`, in input order, where `k` numbers `t` among the targets of
its deadline (the count of them in the output up to position `i`). -/
theorem accumulatedAmount_eq_sum_earlier_and_ties (targets : List Target) (i : ℕ) (t : Target)
    (h : (getAccumulatedTargets targets)[i]? = some t) :
    t.accumulatedAmount = some
      (((targets.filter fun u => decide (u.deadlineAge < t.deadlineAge)).map
          fun u => u.amount).sum
        + (((targets.filter fun u => decide (u.deadlineAge = t.deadlineAge)).take
            (((getAccumulatedTargets targets).take (i + 1)).countP
              fun u => decide (u.deadlineAge = t.deadlineAge))).map fun u => u.amount).sum) := by
  have hS := sortByDeadline_sorted targets
  rw [getAccumulatedTargets, accumulateFrom_getElem?] at h
  cases hu : (sortByDeadline targets)[i]? with
  | none => rw [hu] at h; simp at h
  | some u =>
    rw [hu] at h
    simp only [Option.map_some', Option.some.injEq, zero_add] at h
    have hd : t.deadlineAge = u.deadlineAge := by rw [← h]
    have hacc : t.accumulatedAmount
        = some (((sortByDeadline targets).take (i + 1)).map fun v => v.amount).sum := by rw [← h]
    obtain ⟨hle, hge⟩ := sorted_split_at _ hS i u hu
    -- the number of targets of this deadline up to `i` is the same in the sorted list
    have hcount : ((getAccumulatedTargets targets).take (i + 1)).countP
          (fun v => decide (v.deadlineAge = u.deadlineAge))
        = ((sortByDeadline targets).take (i + 1)).countP
          (fun v => decide (v.deadlineAge = u.deadlineAge)) := by
      have e1 := List.countP_map (fun x : ℚ => decide (x = u.deadlineAge))
        (fun v : Target => v.deadlineAge) ((getAccumulatedTargets targets).take (i + 1))
      have e2 := List.countP_map (fun x : ℚ => decide (x = u.deadlineAge))
        (fun v : Target => v.deadlineAge) ((sortByDeadline targets).take (i + 1))
      rw [getAccumulatedTargets, accumulateFrom_take, accumulateFrom_map_deadline] at e1
      rw [getAccumulatedTargets, accumulateFrom_take]
      exact e1.symm.trans e2
    -- the targets due before `d` all stand in the prefix
    have hbefore : ((sortByDeadline targets).take (i + 1)).filter
          (fun v => decide (v.deadlineAge < u.deadlineAge))
        = (sortByDeadline targets).filter (fun v => decide (v.deadlineAge < u.deadlineAge)) := by
      have hnil : ((sortByDeadline targets).drop (i + 1)).filter
          (fun v => decide (v.deadlineAge < u.deadlineAge)) = [] := by
        rw [List.filter_eq_nil_iff]
        intro y hy
        simpa using hge y hy
      conv_rhs => rw [← List.take_append_drop (i + 1) (sortByDeadline targets)]
      rw [List.filter_append, hnil, List.append_nil]
    have hperm : (((sortByDeadline targets).filter
          fun v => decide (v.deadlineAge < u.deadlineAge)).map fun v => v.amount).sum
        = ((targets.filter fun v => decide (v.deadlineAge < u.deadlineAge)).map
            fun v => v.amount).sum :=
      (((sortByDeadline_perm targets).filter _).map _).sum_eq
    rw [hacc, hd, hcount, sum_amount_split u.deadlineAge _ hle, hbefore, hperm,
      filter_take_eq, filter_sortByDeadline]

/-- C6, amended: witness. -/
theorem accumulatedAmount_eq_sum_earlier_and_ties_witness :
    (getAccumulatedTargets tiedTargets)[1]?
        = some { rawTarget "house" 200 25 with
            accumulatedAmount := some 300, remainingAmount := some 300 }
      ∧ some (300 : ℚ) = some
        (((tiedTargets.filter fun u => decide (u.deadlineAge < 25)).map fun u => u.amount).sum
        + (((tiedTargets.filter fun u => decide (u.deadlineAge = 25)).take
            (((getAccumulatedTargets tiedTargets).take (1 + 1)).countP
              fun u => decide (u.deadlineAge = 25))).map fun u => u.amount).sum) :=
  ⟨by decide!,
    accumulatedAmount_eq_sum_earlier_and_ties tiedTargets 1
      { rawTarget "house" 200 25 with
        accumulatedAmount := some 300, remainingAmount := some 300 } (by decide!)⟩

theorem accumulateFrom_idem (a : ℚ) (l : List Target) :
    accumulateFrom a (accumulateFrom a l) = accumulateFrom a l := by
  induction l generalizing a with
  | nil => rfl
  | cons t rest ih => simp [accumulateFrom, ih]

theorem sorted_iff_map_deadline (l : List Target) :
    l.Sorted deadlineLE ↔ (l.map fun t => t.deadlineAge).Pairwise (fun x y => x ≤ y) := by
  unfold List.Sorted
  rw [List.pairwise_map]
  rfl

theorem getAccumulatedTargets_sorted (targets : List Target) :
    (getAccumulatedTargets targets).Sorted deadlineLE := by
  rw [sorted_iff_map_deadline, getAccumulatedTargets, accumulateFrom_map_deadline,
    ← sorted_iff_map_deadline]
  exact sortByDeadline_sorted targets

theorem getAccumulatedTargets_idem (targets : List Target) :
    getAccumulatedTargets (getAccumulatedTargets targets) = getAccumulatedTargets targets := by
  have hs : sortByDeadline (getAccumulatedTargets targets) = getAccumulatedTargets targets :=
    (getAccumulatedTargets_sorted targets).insertionSort_eq
  conv_lhs => rw [getAccumulatedTargets, hs]
  exact accumulateFrom_idem 0 _

/-- The retry loop leaves the state as it was or as `pause` makes it. -/
theorem makeAIDecision_state (attempts : List Attempt) (s s1 : State) (o : DecisionOutcome)
    (h : makeAIDecision s attempts = some (o, s1)) : s1 = s ∨ s1 = pause s := by
  induction attempts generalizing s with
  | nil =>
    unfold makeAIDecision at h
    split at h
    · simp only [Option.some.injEq, Prod.mk.injEq] at h; exact Or.inl h.2.symm
    · exact absurd h (by simp)
  | cons a rest ih =>
    unfold makeAIDecision at h
    split at h
    · simp only [Option.some.injEq, Prod.mk.injEq] at h; exact Or.inl h.2.symm
    · have hs1 : (if a.pauseArrives = true then pause s else s) = s
          ∨ (if a.pauseArrives = true then pause s else s) = pause s := by
        by_cases hp : a.pauseArrives = true
        · right; simp [hp]
        · left; simp [hp]
      cases hr : a.reply with
      | some d =>
        rw [hr] at h
        simp only [Option.some.injEq, Prod.mk.injEq] at h
        rw [← h.2]; exact hs1
      | none =>
        rw [hr] at h
        rcases ih _ h with h1 | h1 <;> rcases hs1 with h2 | h2
        · left; rw [h1, h2]
        · right; rw [h1, h2]
        · right; rw [h1, h2]
        · right; rw [h1, h2]; rfl

theorem makeAIDecision_targets (attempts : List Attempt) (s s1 : State) (o : DecisionOutcome)
    (h : makeAIDecision s attempts = some (o, s1)) : s1.targets = s.targets := by
  rcases makeAIDecision_state attempts s s1 o h with h1 | h1
  · rw [h1]
  · rw [h1]; rfl

theorem commitDay_targets (s : State) (config : Config) (p : PressureInfo) (d : Decision)
    (random : ℚ) : (commitDay s config p d random).2.targets = s.targets := by
  unfold commitDay
  simp only
  split <;> rfl

/-- A handled `step` leaves the stored target list as it was. -/
theorem step_targets (attempts : List Attempt) (random : ℚ) (s s1 : State)
    (response : StepResponse) (h : step attempts random s = StepOutcome.done response s1) :
    s1.targets = s.targets := by
  unfold step at h
  split at h
  · simp only [StepOutcome.done.injEq] at h; rw [← h.2]
  · split at h
    · exact absurd h (by simp)
    · split at h
      · simp only [StepOutcome.done.injEq] at h; rw [← h.2]
      · split at h
        · exact absurd h (by simp)
        · split at h
          · exact absurd h (by simp)
          · rename_i hm
            simp only [StepOutcome.done.injEq] at h; rw [← h.2]
            exact makeAIDecision_targets _ _ _ _ hm
          · rename_i hm
            simp only [StepOutcome.done.injEq] at h; rw [← h.2, commitDay_targets]
            exact makeAIDecision_targets _ _ _ _ hm

theorem resume_targets (s s1 : State) (config : Option Config) (targets : Option (List Target))
    (h : resume s config targets = some s1) :
    s1.targets = (targets.map fun ts => getAccumulatedTargets (mergeTargets s.targets ts)).getD
      s.targets := by
  unfold resume at h
  cases config with
  | none =>
    cases targets with
    | none => simp only [Option.some.injEq] at h; subst h; rfl
    | some ts => simp only [Option.some.injEq] at h; subst h; rfl
  | some c =>
    cases hc : s.config with
    | none => simp [hc] at h
    | some old =>
      cases targets with
      | none => simp only [hc, Option.some.injEq] at h; subst h; rfl
      | some ts => simp only [hc, Option.some.injEq] at h; subst h; rfl

/-- In every reachable state the stored target list is a fixed point of
`getAccumulatedTargets`. -/
theorem reachable_targets_fixed (s : State) (h : Reachable s) :
    getAccumulatedTargets s.targets = s.targets := by
  induction h with
  | init => rfl
  | start s config targets speed _ _ => exact getAccumulatedTargets_idem _
  | reset s _ _ => rfl
  | pause s _ ih => exact ih
  | resume s s1 config targets _ hr ih =>
    rw [resume_targets s s1 config targets hr]
    cases targets with
    | none => exact ih
    | some ts => exact getAccumulatedTargets_idem _
  | step s s1 attempts random response _ _ _ hs ih =>
    rw [step_targets attempts random s s1 response hs]; exact ih

/-- C7. `getAccumulatedTargets` is idempotent; and in the state `start`
produces, and in the state `resume` produces from any reachable state,
re-deriving the accumulation from the stored target list gives the stored
list back, so every `accumulatedAmount` read from it equals the re-derived
one. -/
theorem getAccumulatedTargets_idempotent_roundtrip :
    (∀ targets : List Target,
      getAccumulatedTargets (getAccumulatedTargets targets) = getAccumulatedTargets targets)
    ∧ (∀ (config : Config) (targets : List Target) (speed : Option ℚ),
      getAccumulatedTargets (start config targets speed).targets
        = (start config targets speed).targets)
    ∧ (∀ (s s1 : State) (config : Option Config) (targets : Option (List Target)),
      Reachable s → resume s config targets = some s1 →
        getAccumulatedTargets s1.targets = s1.targets) :=
  ⟨getAccumulatedTargets_idem,
    fun _ _ _ => getAccumulatedTargets_idem _,
    fun s s1 config targets hs hr =>
      reachable_targets_fixed s1 (Reachable.resume s s1 config targets hs hr)⟩

/-- C7: witness, on the two tied targets and on a `resume` after `start`. -/
theorem getAccumulatedTargets_idempotent_roundtrip_witness :
    getAccumulatedTargets (getAccumulatedTargets tiedTargets) = getAccumulatedTargets tiedTargets
    ∧ Reachable startedOne
    ∧ resume startedOne none (some tiedTargets) = some resumedTied
    ∧ getAccumulatedTargets resumedTied.targets = resumedTied.targets :=
  ⟨getAccumulatedTargets_idempotent_roundtrip.1 tiedTargets,
    Reachable.start resetState sampleConfig _ none Reachable.init,
    by decide!,
    getAccumulatedTargets_idempotent_roundtrip.2.2 startedOne resumedTied none
      (some tiedTargets) (Reachable.start resetState sampleConfig _ none Reachable.init)
      (by decide!)⟩

/-! ## Properties of `step` -/

/-- The guard at the head of `step` (lines 330-336). -/
theorem step_guard_rejects (attempts : List Attempt) (random : ℚ) (s : State)
    (h : s.isRunning = false ∨ (s.isPaused = true ∧ s.isWaitingForResume = true)) :
    step attempts random s
      = StepOutcome.done (StepResponse.rejected "已暂停，等待继续") s := by
  unfold step
  rcases h with h | ⟨h1, h2⟩
  · simp [h]
  · simp [h1, h2]

/-- C8. In a state that is not running, or that is paused and waiting for
`resume`, `step` answers with the rejection (`success: false`,
`paused: true`) and leaves the state exactly as it was. -/
theorem step_rejected_unchanged (attempts : List Attempt) (random : ℚ) (s : State)
    (h : s.isRunning = false ∨ (s.isPaused = true ∧ s.isWaitingForResume = true)) :
    step attempts random s
      = StepOutcome.done (StepResponse.rejected "已暂停，等待继续") s :=
  step_guard_rejects attempts random s h

/-- C8: witness, on the idle state. -/
theorem step_rejected_unchanged_witness :
    idleState.isRunning = false
    ∧ step [workAttempt] 0 idleState
      = StepOutcome.done (StepResponse.rejected "已暂停，等待继续") idleState :=
  ⟨rfl, step_rejected_unchanged [workAttempt] 0 idleState (Or.inl rfl)⟩

/-- C10. In a running state that is not paused-and-waiting, whose age has
reached `config.deadlineAge`, `step` answers `finished` with reason `timeout`
and leaves the state changed in `isRunning` only, now `false`; any further
`step` is rejected and changes nothing. -/
theorem step_timeout (attempts attempts2 : List Attempt) (random random2 : ℚ) (s : State)
    (config : Config) (hrun : s.isRunning = true)
    (hwait : ¬ (s.isPaused = true ∧ s.isWaitingForResume = true))
    (hcfg : s.config = some config) (hage : s.currentAge ≥ config.deadlineAge) :
    step attempts random s
        = StepOutcome.done (StepResponse.finished "timeout") { s with isRunning := false }
    ∧ step attempts2 random2 { s with isRunning := false }
        = StepOutcome.done (StepResponse.rejected "已暂停，等待继续")
            { s with isRunning := false } := by
  constructor
  · unfold step
    have hg : (!s.isRunning || (s.isPaused && s.isWaitingForResume)) = false := by
      rw [hrun]
      cases hp : s.isPaused <;> cases hw : s.isWaitingForResume <;> simp_all
    simp only [hg, hcfg, hage]
    simp
  · exact step_guard_rejects attempts2 random2 _ (Or.inl rfl)

/-- C10: witness, on a run that has reached age 30. -/
theorem step_timeout_witness :
    expiredState.isRunning = true
    ∧ expiredState.currentAge ≥ sampleConfig.deadlineAge
    ∧ step [workAttempt] 0 expiredState
        = StepOutcome.done (StepResponse.finished "timeout")
            { expiredState with isRunning := false }
    ∧ step [workAttempt] 0 { expiredState with isRunning := false }
        = StepOutcome.done (StepResponse.rejected "已暂停，等待继续")
            { expiredState with isRunning := false } :=
  ⟨rfl, by decide!,
    step_timeout [workAttempt] [workAttempt] 0 0 expiredState sampleConfig rfl (by decide) rfl
      (by decide!)⟩

/-- A cancelled retry loop has observed the pause flag set. -/
theorem makeAIDecision_cancelled_paused (attempts : List Attempt) (s s1 : State)
    (h : makeAIDecision s attempts = some (DecisionOutcome.cancelled, s1)) :
    s1.isPaused = true := by
  induction attempts generalizing s with
  | nil =>
    unfold makeAIDecision at h
    split at h
    · rename_i hp
      simp only [Option.some.injEq, Prod.mk.injEq, true_and] at h; rw [← h]; exact hp
    · exact absurd h (by simp)
  | cons a rest ih =>
    unfold makeAIDecision at h
    split at h
    · rename_i hp
      simp only [Option.some.injEq, Prod.mk.injEq, true_and] at h; rw [← h]; exact hp
    · cases hr : a.reply with
      | some d => rw [hr] at h; simp at h
      | none => rw [hr] at h; exact ih _ h

/-- With a config set, `calculateRealPressure` returns. -/
theorem calculateRealPressure_isSome (s : State) (config : Config)
    (hcfg : s.config = some config) : ∃ info, calculateRealPressure s = some info := by
  unfold calculateRealPressure
  split
  · exact ⟨_, rfl⟩
  · simp only
    split
    · exact ⟨_, rfl⟩
    · split
      · exact ⟨_, rfl⟩
      · rw [hcfg]; exact ⟨_, rfl⟩

/-- A cancelled decision acquisition: the rejection, and the state left. -/
theorem step_cancel_state (attempts : List Attempt) (random : ℚ) (s s1 : State)
    (config : Config) (hrun : s.isRunning = true) (hcfg : s.config = some config)
    (hage : s.currentAge < config.deadlineAge)
    (hcancel : makeAIDecision s attempts = some (DecisionOutcome.cancelled, s1)) :
    (∃ message, step attempts random s
        = StepOutcome.done (StepResponse.rejected message) s1)
    ∧ s1 = { s with isPaused := true }
    ∧ (s.isPaused = true → s1 = s) := by
  have hp := makeAIDecision_cancelled_paused attempts s s1 hcancel
  have hs1 : s1 = { s with isPaused := true } := by
    rcases makeAIDecision_state attempts s s1 _ hcancel with h | h
    · rw [h] at hp ⊢; cases s; simp_all
    · rw [h]; rfl
  refine ⟨?_, hs1, fun hpaused => ?_⟩
  · by_cases hg : (!s.isRunning || (s.isPaused && s.isWaitingForResume)) = true
    · refine ⟨"已暂停，等待继续", ?_⟩
      have hpaused : s.isPaused = true := by
        rw [hrun] at hg; cases hq : s.isPaused <;> simp_all
      have : s1 = s := by rw [hs1]; cases s; simp_all
      rw [this]
      unfold step
      simp [hg]
    · refine ⟨"模拟已暂停", ?_⟩
      obtain ⟨info, hinfo⟩ := calculateRealPressure_isSome s config hcfg
      have hage2 : ¬ s.currentAge ≥ config.deadlineAge := not_le.mpr hage
      unfold step
      simp only [hg, hcfg, hage2, hinfo, hcancel]
      simp
  · rw [hs1]; cases s; simp_all

/-- C9. In a running state with `currentAge < config.deadlineAge`, if the
decision acquisition ends cancelled (the pause flag observed set, at the first
pass or after failed attempts), `step` answers with the rejection and writes
nothing: the state it leaves is the state before the call, in which the only
field that can differ is `isPaused`, set by the `pause` request handled while
the call was waiting. When the flag was set before the call the state is
unchanged. -/
theorem step_cancelled_no_mutation (attempts : List Attempt) (random : ℚ) (s s1 : State)
    (config : Config) (hrun : s.isRunning = true) (hcfg : s.config = some config)
    (hage : s.currentAge < config.deadlineAge)
    (hcancel : makeAIDecision s attempts = some (DecisionOutcome.cancelled, s1)) :
    (∃ message, step attempts random s
        = StepOutcome.done (StepResponse.rejected message) s1)
    ∧ s1 = { s with isPaused := true }
    ∧ (s.isPaused = true → s1 = s) :=
  step_cancel_state attempts random s s1 config hrun hcfg hage hcancel

/-- C9: witness: a failed attempt during which `pause` is handled, then the
flag is observed. -/
theorem step_cancelled_no_mutation_witness :
    startedOne.isRunning = true
    ∧ startedOne.currentAge < sampleConfig.deadlineAge
    ∧ makeAIDecision startedOne [failedAttempt, failedPausedAttempt, workAttempt]
        = some (DecisionOutcome.cancelled, { startedOne with isPaused := true })
    ∧ ((∃ message, step [failedAttempt, failedPausedAttempt, workAttempt] 0 startedOne
          = StepOutcome.done (StepResponse.rejected message)
              { startedOne with isPaused := true })
      ∧ ({ startedOne with isPaused := true } : State) = { startedOne with isPaused := true }
      ∧ (startedOne.isPaused = true → { startedOne with isPaused := true } = startedOne)) :=
  ⟨rfl, by decide!, by decide!,
    step_cancelled_no_mutation [failedAttempt, failedPausedAttempt, workAttempt] 0 startedOne
      { startedOne with isPaused := true } sampleConfig rfl rfl (by decide!) (by decide!)⟩

/-- A `step` that passes the guard and the timeout check and obtains a
decision commits the day on the state the awaits left. -/
theorem step_commit (attempts : List Attempt) (random : ℚ) (s s1 : State) (config : Config)
    (info : PressureInfo) (d : Decision)
    (hg : (!s.isRunning || (s.isPaused && s.isWaitingForResume)) = false)
    (hcfg : s.config = some config) (hage : s.currentAge < config.deadlineAge)
    (hinfo : calculateRealPressure s = some info)
    (hd : makeAIDecision s attempts = some (DecisionOutcome.decided d, s1)) :
    step attempts random s
      = StepOutcome.done (commitDay s1 config info d random).1
          (commitDay s1 config info d random).2 := by
  have hage2 : ¬ s.currentAge ≥ config.deadlineAge := not_le.mpr hage
  unfold step
  simp only [hg, hcfg, hage2, hinfo, hd]
  simp

/-- What a committed day writes, whichever way the response goes. -/
theorem commitDay_fields (s : State) (config : Config) (info : PressureInfo) (d : Decision)
    (random : ℚ) :
    (commitDay s config info d random).2.dayCount = s.dayCount + 1
    ∧ (commitDay s config info d random).2.stats.totalDays = s.stats.totalDays + 1
    ∧ (commitDay s config info d random).2.currentMoney
        = s.currentMoney + (executeAction d.action config random).netIncome
    ∧ (commitDay s config info d random).2.logs.length = s.logs.length + 1
    ∧ (commitDay s config info d random).2.isPaused = s.isPaused
    ∧ (s.isPaused = true → (commitDay s config info d random).2.isWaitingForResume = true) := by
  unfold commitDay
  simp only
  split
  · refine ⟨rfl, ?_, rfl, ?_, rfl, ?_⟩
    · simp only [committedState]; split <;> rfl
    · simp [committedState]
    · intro hp; simp [committedState, hp]
  · refine ⟨rfl, ?_, rfl, ?_, rfl, ?_⟩
    · simp only [committedState]; split <;> rfl
    · simp [committedState]
    · intro hp; simp [committedState, hp]

/-- C2, counterexample. After `start`, `pause()` followed by `step()` with a
provider that answers at once does not commit a day: no outcome of that
`step` has `dayCount` raised by one and `isWaitingForResume` set. -/
theorem pause_then_step_commits_no_day :
    startedOne.isRunning = true ∧ startedOne.isPaused = false
    ∧ startedOne.currentAge < sampleConfig.deadlineAge
    ∧ ¬ ∃ response s1, step [workAttempt] 0 (pause startedOne) = StepOutcome.done response s1
        ∧ s1.dayCount = startedOne.dayCount + 1
        ∧ s1.stats.totalDays = startedOne.stats.totalDays + 1
        ∧ s1.currentMoney = startedOne.currentMoney
            + (executeAction workDecision.action sampleConfig 0).netIncome
        ∧ s1.logs.length = startedOne.logs.length + 1
        ∧ s1.isWaitingForResume = true := by
  refine ⟨rfl, rfl, by decide!, ?_⟩
  rintro ⟨response, s1, hstep, hday, -⟩
  have hval : step [workAttempt] 0 (pause startedOne)
      = StepOutcome.done (StepResponse.rejected "模拟已暂停") (pause startedOne) := by decide!
  rw [hval] at hstep
  simp only [StepOutcome.done.injEq] at hstep
  rw [← hstep.2] at hday
  exact absurd hday (by decide)

/-! ## Properties of the pressure score -/

theorem basePressure_nonneg (dailyRequired safeIncome : ℚ) :
    0 ≤ basePressure dailyRequired safeIncome := by
  unfold basePressure
  repeat' split
  all_goals norm_num

/-- Rounding keeps a value of `[0, 100]` in `[0, 100]`. -/
theorem jsRound_range (x : ℚ) (h0 : 0 ≤ x) (h100 : x ≤ 100) :
    0 ≤ jsRound x ∧ jsRound x ≤ 100 := by
  unfold jsRound
  constructor
  · exact Int.floor_nonneg.mpr (by linarith)
  · have h : ⌊x + 1 / 2⌋ < 101 := Int.floor_lt.mpr (by push_cast; linarith)
    omega

/-- With the target not due before the start age, the value rounded lies in
`[0, 100]`. -/
theorem totalPressure_range (s : State) (config : Config) (t : Target)
    (hstart : config.startAge ≤ t.deadlineAge) :
    0 ≤ totalPressure s config t ∧ totalPressure s config t ≤ 100 := by
  unfold totalPressure
  simp only
  refine ⟨le_min (by norm_num) ?_, min_le_left _ _⟩
  have hbase := basePressure_nonneg
    ((t.acc - s.currentMoney) / ((t.deadlineAge - s.currentAge) * 365 - s.currentDayInYear))
    (config.workIncome - config.dailyCost)
  have htime : 0 ≤ (s.dayCount : ℚ) / ((t.deadlineAge - config.startAge) * 365) * 20 := by
    apply mul_nonneg _ (by norm_num)
    apply div_nonneg (Nat.cast_nonneg _)
    apply mul_nonneg _ (by norm_num)
    linarith
  have hfail : 0 ≤ (if s.history.totalGambles > 0
      then (s.history.losses : ℚ) / s.history.totalGambles else 0) * 15 := by
    apply mul_nonneg _ (by norm_num)
    split
    · exact div_nonneg (Nat.cast_nonneg _) (Nat.cast_nonneg _)
    · exact le_refl _
  have hprog : 0 ≤ max 0 (((s.dayCount : ℚ) / ((t.deadlineAge - config.startAge) * 365)
      * t.acc - s.currentMoney) / t.acc) * 25 :=
    mul_nonneg (le_max_left _ _) (by norm_num)
  linarith

/-- With positive amounts, every accumulated amount exceeds the running sum
the accumulation started from. -/
theorem accumulateFrom_acc_gt (a : ℚ) (l : List Target) (hpos : ∀ u ∈ l, 0 < u.amount)
    (t : Target) (ht : t ∈ accumulateFrom a l) : a < t.acc := by
  induction l generalizing a with
  | nil => simp [accumulateFrom] at ht
  | cons u rest ih =>
    have hu : 0 < u.amount := hpos u (List.mem_cons_self _ _)
    simp only [accumulateFrom, List.mem_cons] at ht
    rcases ht with ht | ht
    · rw [ht]; simp only [Target.acc, Option.getD_some]; linarith
    · have := ih (a + u.amount) (fun v hv => hpos v (List.mem_cons_of_mem _ hv)) ht
      linarith

theorem getAccumulatedTargets_acc_pos (targets : List Target)
    (hpos : ∀ u ∈ targets, 0 < u.amount) (t : Target)
    (ht : t ∈ getAccumulatedTargets targets) : 0 < t.acc := by
  apply accumulateFrom_acc_gt 0 (sortByDeadline targets) _ t ht
  intro u hu
  exact hpos u ((sortByDeadline_perm targets).mem_iff.mp hu)

/-- C4. For a state with a config set, `config.startAge <= currentAge`,
`1 <= currentDayInYear <= 365` and positive target amounts (the counters are
naturals, so `dayCount >= 0` and `0 <= losses`; the bound
`losses <= totalGambles` is not needed), `calculateRealPressure` returns, and
its `pressure` is an integer with `0 <= pressure <= 100`. Moreover whenever
the scoring branch is taken for a target `t` (the remaining days being
positive), both divisors it forms besides the remaining days are positive, so
the exact arithmetic never divides by zero. -/
theorem calculateRealPressure_range (s : State) (config : Config)
    (hcfg : s.config = some config) (hage : config.startAge ≤ s.currentAge)
    (hday : 1 ≤ s.currentDayInYear ∧ s.currentDayInYear ≤ 365)
    (hamt : ∀ t ∈ s.targets, 0 < t.amount) :
    ∃ info, calculateRealPressure s = some info
      ∧ 0 ≤ info.pressure ∧ info.pressure ≤ 100
      ∧ ∀ t, info.currentTarget = some t →
          0 < (t.deadlineAge - s.currentAge) * 365 - s.currentDayInYear →
          0 < (t.deadlineAge - config.startAge) * 365 ∧ 0 < t.acc := by
  unfold calculateRealPressure
  split
  · exact ⟨_, rfl, le_refl _, by norm_num, fun t ht => by simp at ht⟩
  · simp only
    split
    · exact ⟨_, rfl, le_refl _, by norm_num, fun t ht => by simp at ht⟩
    · rename_i currentTarget rest hact
      have hmem : currentTarget ∈ (getAccumulatedTargets s.targets).filter
          (isActive s.currentAge) := by rw [hact]; exact List.mem_cons_self _ _
      obtain ⟨hin, hactive⟩ := List.mem_filter.mp hmem
      have hdl : s.currentAge ≤ currentTarget.deadlineAge := by
        simp only [isActive, Bool.and_eq_true, decide_eq_true_eq] at hactive
        exact hactive.2
      have hacc := getAccumulatedTargets_acc_pos s.targets hamt currentTarget hin
      have hdiv : ∀ t, some currentTarget = some t →
          0 < (t.deadlineAge - s.currentAge) * 365 - s.currentDayInYear →
          0 < (t.deadlineAge - config.startAge) * 365 ∧ 0 < t.acc := by
        intro t ht hrem
        simp only [Option.some.injEq] at ht
        subst ht
        have h1 : (1 : ℚ) ≤ s.currentDayInYear := by exact_mod_cast hday.1
        constructor
        · nlinarith
        · exact hacc
      split
      · exact ⟨_, rfl, by norm_num, le_refl _, hdiv⟩
      · rw [hcfg]
        obtain ⟨h0, h100⟩ := totalPressure_range s config currentTarget (le_trans hage hdl)
        obtain ⟨hr0, hr100⟩ := jsRound_range _ h0 h100
        exact ⟨_, rfl, hr0, hr100, hdiv⟩

/-- C4: witness, in the middle of a run. -/
theorem calculateRealPressure_range_witness :
    midRunState.config = some sampleConfig
    ∧ sampleConfig.startAge ≤ midRunState.currentAge
    ∧ (calculateRealPressure midRunState).map (fun info => info.pressure) = some 28
    ∧ ∃ info, calculateRealPressure midRunState = some info
      ∧ 0 ≤ info.pressure ∧ info.pressure ≤ 100
      ∧ ∀ t, info.currentTarget = some t →
          0 < (t.deadlineAge - midRunState.currentAge) * 365 - midRunState.currentDayInYear →
          0 < (t.deadlineAge - sampleConfig.startAge) * 365 ∧ 0 < t.acc :=
  ⟨rfl, by decide!, by decide!,
    calculateRealPressure_range midRunState sampleConfig rfl (by decide!) (by decide)
      (by decide!)⟩

/-! ## The completion scan writes to copies -/

/-- C1, evaluated at the failing input. After `start` with one target of 100
due at 25, a committed day of work leaves money 150 at age 20: the target is
the first one not completed, covered and not past its deadline, and the scan
reports it in the log entry. The stored target list is nevertheless left as
it was, `completed` still `false` and no `completedAge`. -/
theorem step_leaves_stored_target_unmarked :
    (step [workAttempt] 0 startedOne).finalState.map
        (fun s => (s.currentMoney, s.currentAge, s.targets))
      = some (150, 20,
          [{ description := "house", amount := 100, deadlineAge := 25, completed := false,
             completedAge := none, accumulatedAmount := some 100,
             remainingAmount := some 100 }])
    ∧ (step [workAttempt] 0 startedOne).response.bind StepResponse.completedTarget
      = some { name := "house", amount := some 100 } := by
  constructor <;> decide!

/-- C3, evaluated at the failing input. In the run started with the single
target of 100 due at 25, the first committed day ends with money 150 at age
20, yet `step` does not answer `finished` with `success`, `isRunning` stays
`true`, and the next `step` is not rejected but commits a second day. -/
theorem step_does_not_report_success :
    (step [workAttempt] 0 startedOne).response.map (StepResponse.isFinished "success")
      = some false
    ∧ (step [workAttempt] 0 startedOne).finalState.map
        (fun s => (s.isRunning, decide (s.currentMoney ≥ 100), decide (s.currentAge ≤ 25)))
      = some (true, true, true)
    ∧ ((step [workAttempt] 0 startedOne).finalState.bind
        fun s => (step [workAttempt] 0 s).finalState).map (fun s => (s.dayCount, s.isRunning))
      = some (2, true) := by
  refine ⟨?_, ?_, ?_⟩ <;> decide!

/-! ## The shape of a handled `step` -/

/-- The four ways a `step` request is answered: rejected by the guard, timed
out, cancelled by a pause, or a committed day. -/
theorem step_done_cases (attempts : List Attempt) (random : ℚ) (s s2 : State)
    (response : StepResponse) (h : step attempts random s = StepOutcome.done response s2) :
    (response = StepResponse.rejected "已暂停，等待继续" ∧ s2 = s
      ∧ (s.isRunning = false ∨ (s.isPaused = true ∧ s.isWaitingForResume = true)))
    ∨ (∃ config, s.config = some config ∧ s.isRunning = true
      ∧ s.currentAge ≥ config.deadlineAge
      ∧ response = StepResponse.finished "timeout" ∧ s2 = { s with isRunning := false })
    ∨ (∃ config, s.config = some config ∧ s.isRunning = true
      ∧ s.currentAge < config.deadlineAge
      ∧ response = StepResponse.rejected "模拟已暂停" ∧ s2 = { s with isPaused := true })
    ∨ (∃ config info d s1, s.config = some config ∧ s.isRunning = true
      ∧ s.currentAge < config.deadlineAge
      ∧ calculateRealPressure s = some info
      ∧ makeAIDecision s attempts = some (DecisionOutcome.decided d, s1)
      ∧ (s1 = s ∨ s1 = pause s)
      ∧ response = (commitDay s1 config info d random).1
      ∧ s2 = (commitDay s1 config info d random).2) := by
  unfold step at h
  split at h
  · rename_i hg
    simp only [StepOutcome.done.injEq] at h
    refine Or.inl ⟨h.1.symm, h.2.symm, ?_⟩
    cases hr : s.isRunning <;> cases hp : s.isPaused <;> cases hw : s.isWaitingForResume <;>
      simp_all
  · rename_i hg
    have hrun : s.isRunning = true := by
      cases hr : s.isRunning <;> simp_all
    split at h
    · exact absurd h (by simp)
    · rename_i config hcfg
      split at h
      · rename_i hage
        simp only [StepOutcome.done.injEq] at h
        exact Or.inr (Or.inl ⟨config, hcfg, hrun, hage, h.1.symm, h.2.symm⟩)
      · rename_i hage
        have hlt : s.currentAge < config.deadlineAge := not_le.mp hage
        split at h
        · exact absurd h (by simp)
        · rename_i info hinfo
          split at h
          · exact absurd h (by simp)
          · rename_i s1 hm
            simp only [StepOutcome.done.injEq] at h
            have hp := makeAIDecision_cancelled_paused attempts s s1 hm
            have hs1 : s1 = { s with isPaused := true } := by
              rcases makeAIDecision_state attempts s s1 _ hm with h1 | h1
              · rw [h1] at hp ⊢; cases s; simp_all
              · rw [h1]; rfl
            exact Or.inr (Or.inr (Or.inl ⟨config, hcfg, hrun, hlt, h.1.symm,
              by rw [← h.2, hs1]⟩))
          · rename_i d s1 hm
            simp only [StepOutcome.done.injEq] at h
            exact Or.inr (Or.inr (Or.inr ⟨config, info, d, s1, hcfg, hrun, hlt, hinfo, hm,
              makeAIDecision_state attempts s s1 _ hm, h.1.symm, h.2.symm⟩))

/-- The state a committed day leaves is the state `committedState` writes,
with `isRunning` as the response decides it. -/
theorem commitDay_state (s : State) (config : Config) (info : PressureInfo) (d : Decision)
    (random : ℚ) :
    ∃ b : Bool, (commitDay s config info d random).2
      = { (committedState s config info d random).1 with isRunning := b } := by
  unfold commitDay
  simp only
  split
  · exact ⟨false, rfl⟩
  · exact ⟨(committedState s config info d random).1.isRunning, rfl⟩

/-- The response of a committed day reports a committed day. -/
theorem commitDay_committed (s : State) (config : Config) (info : PressureInfo) (d : Decision)
    (random : ℚ) : (commitDay s config info d random).1.committed = true := by
  unfold commitDay
  simp only
  split
  · show ("success" == "success") = true
    decide
  · rfl

/-- A `step` that commits a day went through `committedState`, on the state
as it was or as a `pause` request left it. -/
theorem commitsDay_inv (a : Action) (s s2 : State) (h : CommitsDay a s s2) :
    ∃ (config : Config) (info : PressureInfo) (d : Decision) (random : ℚ) (s1 : State)
      (b : Bool),
      s.config = some config ∧ d.action = a ∧ 0 ≤ random ∧ random < 1
      ∧ (s1 = s ∨ s1 = pause s)
      ∧ s2 = { (committedState s1 config info d random).1 with isRunning := b } := by
  obtain ⟨attempts, random, response, d, s1, hr0, hr1, hstep, hcom, hdec, hact⟩ := h
  rcases step_done_cases attempts random s s2 response hstep with
    ⟨hresp, -, -⟩ | ⟨config, -, -, -, hresp, -⟩ | ⟨config, -, -, -, hresp, -⟩
    | ⟨config, info, d2, s3, hcfg, -, -, -, hdec2, hs3, -, hs2⟩
  · rw [hresp] at hcom; exact absurd hcom (by decide)
  · rw [hresp] at hcom; exact absurd hcom (by decide)
  · rw [hresp] at hcom; exact absurd hcom (by decide)
  · rw [hdec] at hdec2
    simp only [Option.some.injEq, Prod.mk.injEq, DecisionOutcome.decided.injEq] at hdec2
    obtain ⟨hd, hs⟩ := hdec2
    subst hd; subst hs
    obtain ⟨b, hb⟩ := commitDay_state s1 config info d random
    exact ⟨config, info, d, random, s1, b, hcfg, hact, hr0, hr1, hs3, by rw [hs2, hb]⟩

/-! ## Runs of committed days -/

/-- A run of `runDays` that returns is a `DayRun` of the action of its
attempt. -/
theorem runDays_dayRun (d : Decision) (pauseArrives : Bool) (random : ℚ)
    (h0 : 0 ≤ random) (h1 : random < 1) (n : ℕ) (s s2 : State)
    (h : runDays { reply := some d, pauseArrives := pauseArrives } random n s = some s2) :
    DayRun d.action s n s2 := by
  induction n generalizing s2 with
  | zero =>
    simp only [runDays, Option.some.injEq] at h
    rw [← h]; exact DayRun.zero
  | succ n ih =>
    unfold runDays at h
    cases hr : runDays { reply := some d, pauseArrives := pauseArrives } random n s with
    | none => rw [hr] at h; simp at h
    | some s1 =>
      rw [hr] at h
      simp only at h
      cases hstep : step [{ reply := some d, pauseArrives := pauseArrives }] random s1 with
      | threw => rw [hstep] at h; simp at h
      | pending => rw [hstep] at h; simp at h
      | done response s3 =>
        rw [hstep] at h
        simp only at h
        split at h
        · rename_i hcom
          simp only [Option.some.injEq] at h
          subst h
          refine DayRun.next n s1 s3 (ih s1 hr) ?_
          rcases step_done_cases _ random s1 s3 response hstep with
            ⟨hresp, -, -⟩ | ⟨config, -, -, -, hresp, -⟩ | ⟨config, -, -, -, hresp, -⟩
            | ⟨config, info, d2, s4, -, -, -, -, hdec, -, -, -⟩
          · rw [hresp] at hcom; exact absurd hcom (by decide)
          · rw [hresp] at hcom; exact absurd hcom (by decide)
          · rw [hresp] at hcom; exact absurd hcom (by decide)
          · have hd : d2 = d := by
              unfold makeAIDecision at hdec
              split at hdec
              · simp at hdec
              · simp only [Option.some.injEq, Prod.mk.injEq,
                  DecisionOutcome.decided.injEq] at hdec
                exact hdec.1.symm
            subst hd
            exact ⟨_, random, response, d2, s4, h0, h1, hstep, hcom, hdec, rfl⟩
        · simp at h

/-- What a committed day of work writes. -/
theorem commitsDay_work (s s2 : State) (config : Config)
    (h : CommitsDay Action.work s s2) (hcfg : s.config = some config) :
    s2.config = some config
    ∧ s2.currentMoney = s.currentMoney + (config.workIncome - config.dailyCost)
    ∧ s2.dayCount = s.dayCount + 1
    ∧ s2.history.workDays = s.history.workDays + 1 := by
  obtain ⟨config2, info, d, random, s1, b, hcfg2, hact, -, -, hs1, hs2⟩ :=
    commitsDay_inv Action.work s s2 h
  rw [hcfg] at hcfg2
  simp only [Option.some.injEq] at hcfg2
  subst hcfg2
  rcases hs1 with hs1 | hs1 <;> subst hs1 <;> subst hs2 <;>
    simp [committedState, executeAction, hact, pause, hcfg]

/-- A run of work days adds `workIncome - dailyCost` a day and counts the
days. -/
theorem dayRun_work (s0 s : State) (config : Config) (n : ℕ)
    (hcfg : s0.config = some config) (h : DayRun Action.work s0 n s) :
    s.config = some config
    ∧ s.currentMoney = s0.currentMoney + n * (config.workIncome - config.dailyCost)
    ∧ s.dayCount = s0.dayCount + n
    ∧ s.history.workDays = s0.history.workDays + n := by
  induction h with
  | zero => simp [hcfg]
  | next n s1 s2 _ hday ih =>
    obtain ⟨h1, h2, h3, h4⟩ := ih
    obtain ⟨g1, g2, g3, g4⟩ := commitsDay_work s1 s2 config hday h1
    refine ⟨g1, ?_, ?_, ?_⟩
    · rw [g2, h2]; push_cast; ring
    · rw [g3, h3]; ring
    · rw [g4, h4]; ring

/-- With `gambleWinRate = 100` every draw of `[0, 1)` wins. -/
theorem executeAction_certain_win (config : Config) (random : ℚ)
    (hrate : config.gambleWinRate = 100) (h1 : random < 1) :
    executeAction Action.gamble config random
      = { income := config.gambleWinAmount,
          netIncome := config.gambleWinAmount - config.dailyCost,
          action := "🎰 赌博-赢!", isWin := some true } := by
  have hwin : random * 100 < config.gambleWinRate := by rw [hrate]; linarith
  simp [executeAction, hwin]

/-- What a committed day of gambling writes when the gamble always wins. -/
theorem commitsDay_certain_win (s s2 : State) (config : Config)
    (hrate : config.gambleWinRate = 100)
    (h : CommitsDay Action.gamble s s2) (hcfg : s.config = some config) :
    s2.config = some config
    ∧ (∃ e : LogEntry, s2.logs = s.logs ++ [e] ∧ e.income = config.gambleWinAmount
        ∧ e.netIncome = config.gambleWinAmount - config.dailyCost)
    ∧ s2.history.wins = s.history.wins + 1
    ∧ s2.dayCount = s.dayCount + 1
    ∧ s2.history.losses = s.history.losses := by
  obtain ⟨config2, info, d, random, s1, b, hcfg2, hact, -, hr1, hs1, hs2⟩ :=
    commitsDay_inv Action.gamble s s2 h
  rw [hcfg] at hcfg2
  simp only [Option.some.injEq] at hcfg2
  subst hcfg2
  have hex := executeAction_certain_win config random hrate hr1
  rcases hs1 with hs1 | hs1 <;> subst hs1 <;> subst hs2 <;>
    simp [committedState, hact, hex, pause, hcfg]

/-- A run of certain-win gamble days: every log entry it appends carries the
win, and the wins count the days. -/
theorem dayRun_certain_win (s0 s : State) (config : Config) (n : ℕ)
    (hrate : config.gambleWinRate = 100)
    (hcfg : s0.config = some config) (h : DayRun Action.gamble s0 n s) :
    s.config = some config
    ∧ (∃ added : List LogEntry, s.logs = s0.logs ++ added ∧ added.length = n
        ∧ ∀ e ∈ added, e.income = config.gambleWinAmount
          ∧ e.netIncome = config.gambleWinAmount - config.dailyCost)
    ∧ s.history.wins = s0.history.wins + n
    ∧ s.dayCount = s0.dayCount + n
    ∧ s.history.losses = s0.history.losses := by
  induction h with
  | zero => exact ⟨hcfg, ⟨[], by simp, rfl, by simp⟩, rfl, rfl, rfl⟩
  | next n s1 s2 _ hday ih =>
    obtain ⟨h1, ⟨added, hlogs, hlen, hall⟩, h3, h4, h5⟩ := ih
    obtain ⟨g1, ⟨e, ge, gi, gn⟩, g3, g4, g5⟩ :=
      commitsDay_certain_win s1 s2 config hrate hday h1
    refine ⟨g1, ⟨added ++ [e], ?_, ?_, ?_⟩, ?_, ?_, ?_⟩
    · rw [ge, hlogs, List.append_assoc]
    · simp [hlen]
    · intro x hx
      rcases List.mem_append.mp hx with hx | hx
      · exact hall x hx
      · have : x = e := by simpa using hx
        rw [this]; exact ⟨gi, gn⟩
    · rw [g3, h3]; ring
    · rw [g4, h4]; ring
    · rw [g5, h5]

/-- C12. For every config with `gambleWinRate = 100` and every `n`: if the
first `n` `step` calls after `start` each commit a day on the decision
`gamble`, whatever values of `[0, 1)` `Math.random()` returns, then every one
of the `n` days is logged with `income = gambleWinAmount` and
`netIncome = gambleWinAmount - dailyCost`, and afterwards
`history.wins = dayCount = n` and `history.losses = 0`. -/
theorem certain_win_gamble_run (config : Config) (targets : List Target) (speed : Option ℚ)
    (n : ℕ) (s : State) (hrate : config.gambleWinRate = 100)
    (h : DayRun Action.gamble (start config targets speed) n s) :
    s.logs.length = n
    ∧ (∀ e ∈ s.logs, e.income = config.gambleWinAmount
        ∧ e.netIncome = config.gambleWinAmount - config.dailyCost)
    ∧ s.history.wins = n ∧ s.dayCount = n ∧ s.history.losses = 0 := by
  obtain ⟨-, ⟨added, hlogs, hlen, hall⟩, h3, h4, h5⟩ :=
    dayRun_certain_win (start config targets speed) s config n hrate rfl h
  have hl : s.logs = added := by rw [hlogs]; simp [start, resetState]
  refine ⟨by rw [hl, hlen], by rw [hl]; exact hall, ?_, ?_, ?_⟩
  · rw [h3]; simp [start, resetState]
  · rw [h4]; simp [start, resetState]
  · rw [h5]; simp [start, resetState]

/-- C12: witness: fifty gamble days with the draw `99/100` after `start` with
the certain-win config. -/
theorem certain_win_gamble_run_witness :
    certainWinConfig.gambleWinRate = 100
    ∧ ∃ s, DayRun Action.gamble (start certainWinConfig [rawTarget "house" 36500 25] none) 50 s
      ∧ s.logs.length = 50
      ∧ (∀ e ∈ s.logs, e.income = 300 ∧ e.netIncome = 300 - 50)
      ∧ s.history.wins = 50 ∧ s.dayCount = 50 ∧ s.history.losses = 0 := by
  refine ⟨rfl, ?_⟩
  have hev : (runDays gambleAttempt (99 / 100) 50 startedCertain).isSome = true := by decide!
  obtain ⟨s, hs⟩ := Option.isSome_iff_exists.mp hev
  have hrun : DayRun Action.gamble
      (start certainWinConfig [rawTarget "house" 36500 25] none) 50 s :=
    runDays_dayRun gambleDecision false (99 / 100) (by norm_num) (by norm_num) 50
      startedCertain s hs
  exact ⟨s, hrun, certain_win_gamble_run certainWinConfig _ none 50 s rfl hrun⟩

/-! ## `resume` -/

/-- C13, evaluated at the failing input. A `resume` request with no config
and no targets, handled in the initial state, leaves `isRunning = true` with
no config set; the state is reachable, and the next `step` passes the guard
and throws on `state.config.deadlineAge`. -/
theorem resume_idle_runs_without_config :
    resume resetState none none = some resumedIdle
    ∧ Reachable resumedIdle
    ∧ resumedIdle.isRunning = true ∧ resumedIdle.config = none
    ∧ step [workAttempt] 0 resumedIdle = StepOutcome.threw := by
  have h : resume resetState none none = some resumedIdle := by decide!
  exact ⟨h, Reachable.resume resetState resumedIdle none none Reachable.init h, rfl, rfl,
    by decide!⟩

/-- C15. For every state with a config set and every supplied config `c`
(with or without supplied targets), `resume` returns; afterwards the config
has the `startAge` it had before the call and every other field of `c`,
`isPaused` and `isWaitingForResume` are `false`, `isRunning` is `true`, and
`currentMoney`, `dayCount`, `currentAge`, `currentDayInYear`, `stats`,
`history` and `logs` are as before. -/
theorem resume_keeps_startAge (s : State) (old c : Config) (targets : Option (List Target))
    (hcfg : s.config = some old) :
    ∃ s1, resume s (some c) targets = some s1
      ∧ s1.config = some
          { startAge := old.startAge, deadlineAge := c.deadlineAge,
            workIncome := c.workIncome, dailyCost := c.dailyCost,
            gambleWinRate := c.gambleWinRate, gambleWinAmount := c.gambleWinAmount,
            gambleLossAmount := c.gambleLossAmount }
      ∧ s1.isPaused = false ∧ s1.isWaitingForResume = false ∧ s1.isRunning = true
      ∧ s1.currentMoney = s.currentMoney ∧ s1.dayCount = s.dayCount
      ∧ s1.currentAge = s.currentAge ∧ s1.currentDayInYear = s.currentDayInYear
      ∧ s1.stats = s.stats ∧ s1.history = s.history ∧ s1.logs = s.logs := by
  cases targets with
  | none =>
    refine ⟨{ s with config := some { c with startAge := old.startAge }, isPaused := false,
                     isWaitingForResume := false, isRunning := true }, ?_, ?_⟩
    · simp [resume, hcfg]
    · simp
  | some ts =>
    refine ⟨{ s with config := some { c with startAge := old.startAge },
                     targets := getAccumulatedTargets (mergeTargets s.targets ts),
                     isPaused := false, isWaitingForResume := false, isRunning := true },
      ?_, ?_⟩
    · simp [resume, hcfg]
    · simp

/-- C15: witness: a config with start age 40 supplied to a run started at 20. -/
theorem resume_keeps_startAge_witness :
    midRunState.config = some sampleConfig
    ∧ ∃ s1, resume midRunState (some resumeConfig) (some tiedTargets) = some s1
      ∧ s1.config = some
          { startAge := 20, deadlineAge := 35, workIncome := 250, dailyCost := 60,
            gambleWinRate := 30, gambleWinAmount := 500, gambleLossAmount := 100 }
      ∧ s1.isPaused = false ∧ s1.isWaitingForResume = false ∧ s1.isRunning = true
      ∧ s1.currentMoney = midRunState.currentMoney ∧ s1.dayCount = midRunState.dayCount
      ∧ s1.currentAge = midRunState.currentAge
      ∧ s1.currentDayInYear = midRunState.currentDayInYear
      ∧ s1.stats = midRunState.stats ∧ s1.history = midRunState.history
      ∧ s1.logs = midRunState.logs :=
  ⟨rfl, resume_keeps_startAge midRunState sampleConfig resumeConfig (some tiedTargets) rfl⟩

/-! ## Properties of the pressure score: the branches before scoring -/

/-- The accumulated list of an empty target list has no active target. -/
theorem active_nil_of_no_targets (s : State) (h : s.targets.length = 0) :
    (getAccumulatedTargets s.targets).filter (isActive s.currentAge) = [] := by
  have : s.targets = [] := List.length_eq_zero.mp h
  rw [this]; rfl

/-- The deadline branch: for the earliest active target `t` with no remaining
days, the result is the fixed pressure 100. -/
theorem calculateRealPressure_deadline (s : State) (t : Target)
    (hact : ((getAccumulatedTargets s.targets).filter (isActive s.currentAge)).head? = some t)
    (hrem : (t.deadlineAge - s.currentAge) * 365 - s.currentDayInYear ≤ 0) :
    calculateRealPressure s
      = some { pressure := 100, emoji := "💀", text := "目标已超时",
               currentTarget := some t,
               remainingMoney := some (t.acc - s.currentMoney),
               remainingDays := some 0, dailyRequired := none } := by
  unfold calculateRealPressure
  split
  · rename_i h0
    rw [active_nil_of_no_targets s h0] at hact
    simp at hact
  · simp only
    split
    · rename_i hnil
      rw [hnil] at hact
      simp at hact
    · rename_i currentTarget rest hcons
      rw [hcons] at hact
      simp only [List.head?_cons, Option.some.injEq] at hact
      subst hact
      simp [hrem]

/-- C14. For every state whose earliest active target `t` (the first target
of the accumulated list that is not completed and has
`deadlineAge >= currentAge`) has
`(deadlineAge - currentAge) * 365 - currentDayInYear <= 0`,
`calculateRealPressure` returns pressure 100 for `t`, with
`remainingDays = 0` and `remainingMoney` the accumulated amount of `t` less
`currentMoney`. -/
theorem deadline_passed_pressure (s : State) (t : Target)
    (hact : ((getAccumulatedTargets s.targets).filter (isActive s.currentAge)).head? = some t)
    (hrem : (t.deadlineAge - s.currentAge) * 365 - s.currentDayInYear ≤ 0) :
    calculateRealPressure s
      = some { pressure := 100, emoji := "💀", text := "目标已超时",
               currentTarget := some t,
               remainingMoney := some (t.acc - s.currentMoney),
               remainingDays := some 0, dailyRequired := none } :=
  calculateRealPressure_deadline s t hact hrem

/-- C14: witness: the house due at 25, at age 25. -/
theorem deadline_passed_pressure_witness :
    ((getAccumulatedTargets finalYearState.targets).filter
        (isActive finalYearState.currentAge)).head?
      = some { rawTarget "house" 36500 25 with
          accumulatedAmount := some 36500, remainingAmount := some 36500 }
    ∧ calculateRealPressure finalYearState
      = some { pressure := 100, emoji := "💀", text := "目标已超时",
               currentTarget := some { rawTarget "house" 36500 25 with
                 accumulatedAmount := some 36500, remainingAmount := some 36500 },
               remainingMoney := some (36500 - 30000),
               remainingDays := some 0, dailyRequired := none } :=
  ⟨by decide!,
    deadline_passed_pressure finalYearState
      { rawTarget "house" 36500 25 with
        accumulatedAmount := some 36500, remainingAmount := some 36500 }
      (by decide!) (by decide!)⟩

/-! ## Properties of the pressure score: the scoring branch -/

/-- The scoring branch: with a config set, for the earliest active target
`t` with positive remaining days, the result is built from `totalPressure`. -/
theorem calculateRealPressure_scoring (s : State) (config : Config) (t : Target)
    (hcfg : s.config = some config)
    (hact : ((getAccumulatedTargets s.targets).filter (isActive s.currentAge)).head? = some t)
    (hrem : 0 < (t.deadlineAge - s.currentAge) * 365 - s.currentDayInYear) :
    calculateRealPressure s
      = some { pressure := jsRound (totalPressure s config t),
               emoji := (pressureLabel (totalPressure s config t)).1,
               text := (pressureLabel (totalPressure s config t)).2,
               currentTarget := some t,
               remainingMoney := some (t.acc - s.currentMoney),
               remainingDays := some ((t.deadlineAge - s.currentAge) * 365 - s.currentDayInYear),
               dailyRequired := some ((t.acc - s.currentMoney)
                 / ((t.deadlineAge - s.currentAge) * 365 - s.currentDayInYear)) } := by
  unfold calculateRealPressure
  split
  · rename_i h0
    rw [active_nil_of_no_targets s h0] at hact
    simp at hact
  · simp only
    split
    · rename_i hnil
      rw [hnil] at hact
      simp at hact
    · rename_i currentTarget rest hcons
      rw [hcons] at hact
      simp only [List.head?_cons, Option.some.injEq] at hact
      subst hact
      have hn : ¬ (currentTarget.deadlineAge - s.currentAge) * 365 - s.currentDayInYear ≤ 0 :=
        not_le.mpr hrem
      simp [hn, hcfg]

/-- The successive overwrites give the band of the value they are applied to. -/
theorem pressureLabel_text (x : ℚ) : (pressureLabel x).2 = bandLabel x := by
  unfold pressureLabel bandLabel
  simp only
  split_ifs <;> first | rfl | (exfalso; linarith)

/-- C16, counterexample. At age 21, day 120, 484 days in, with 10000 saved
towards 36500 due at 25, the total is about 15.3: the reported pressure is
15, for which the thresholds give `轻松` (relaxed), but the returned label is
`平稳` (steady). -/
theorem label_not_function_of_reported_pressure :
    (calculateRealPressure labelGapState).map (fun info => (info.pressure, info.text))
      = some (15, "平稳")
    ∧ bandLabel ((15 : ℤ) : ℚ) = "轻松"
    ∧ (calculateRealPressure labelGapState).map
        (fun info => decide (info.text = bandLabel (info.pressure : ℚ))) = some false := by
  refine ⟨?_, ?_, ?_⟩ <;> decide!

/-! ## Properties of the pressure score: money and expired targets -/

/-- With no active target the result is pressure 0 with no current target;
the label is `全部完成` unless the target list is empty. -/
theorem calculateRealPressure_no_active (s : State)
    (h : (getAccumulatedTargets s.targets).filter (isActive s.currentAge) = []) :
    ∃ info, calculateRealPressure s = some info ∧ info.pressure = 0
      ∧ info.currentTarget = none
      ∧ (s.targets ≠ [] → info.emoji = "🎉" ∧ info.text = "全部完成") := by
  unfold calculateRealPressure
  split
  · rename_i h0
    refine ⟨_, rfl, rfl, rfl, fun hne => ?_⟩
    exact absurd (List.length_eq_zero.mp h0) hne
  · simp only
    split
    · exact ⟨_, rfl, rfl, rfl, fun _ => ⟨rfl, rfl⟩⟩
    · rename_i currentTarget rest hcons
      rw [hcons] at h
      simp at h

/-- The first active target is a member of the accumulated list and active. -/
theorem head_active_mem (s : State) (t : Target)
    (hact : ((getAccumulatedTargets s.targets).filter (isActive s.currentAge)).head? = some t) :
    t ∈ getAccumulatedTargets s.targets ∧ t.completed = false
      ∧ s.currentAge ≤ t.deadlineAge := by
  have hmem : t ∈ (getAccumulatedTargets s.targets).filter (isActive s.currentAge) :=
    List.mem_of_mem_head? hact
  obtain ⟨hin, hactive⟩ := List.mem_filter.mp hmem
  simp only [isActive, Bool.and_eq_true, Bool.not_eq_true', decide_eq_true_eq] at hactive
  exact ⟨hin, hactive.1, hactive.2⟩

/-- On the scoring branch, under the start age and positive amounts, both
divisors formed besides the remaining days are positive. -/
theorem scoring_divisors_pos (s : State) (config : Config) (t : Target)
    (hage : config.startAge ≤ s.currentAge) (hamt : ∀ u ∈ s.targets, 0 < u.amount)
    (hact : ((getAccumulatedTargets s.targets).filter (isActive s.currentAge)).head? = some t)
    (hrem : 0 < (t.deadlineAge - s.currentAge) * 365 - s.currentDayInYear) :
    0 < (t.deadlineAge - config.startAge) * 365 ∧ 0 < t.acc := by
  obtain ⟨hin, -, hdl⟩ := head_active_mem s t hact
  have h0 : (0 : ℚ) ≤ s.currentDayInYear := Nat.cast_nonneg _
  exact ⟨by nlinarith, getAccumulatedTargets_acc_pos s.targets hamt t hin⟩

/-- Below a threshold of the chain the base pressure is at most the value
the chain gives at that threshold. -/
theorem basePressure_le_of_le (d safeIncome : ℚ) :
    (d ≤ 0 → basePressure d safeIncome ≤ 0)
    ∧ (d ≤ safeIncome * (3 / 10) → basePressure d safeIncome ≤ 10)
    ∧ (d ≤ safeIncome * (6 / 10) → basePressure d safeIncome ≤ 25)
    ∧ (d ≤ safeIncome * (9 / 10) → basePressure d safeIncome ≤ 40)
    ∧ (d ≤ safeIncome * (12 / 10) → basePressure d safeIncome ≤ 55)
    ∧ (d ≤ safeIncome * (18 / 10) → basePressure d safeIncome ≤ 75)
    ∧ basePressure d safeIncome ≤ 90 := by
  unfold basePressure
  refine ⟨?_, ?_, ?_, ?_, ?_, ?_, ?_⟩
  all_goals first
    | (intro hd; split_ifs <;> norm_num)
    | (split_ifs <;> norm_num)

theorem basePressure_mono (d1 d2 safeIncome : ℚ) (h : d1 ≤ d2) :
    basePressure d1 safeIncome ≤ basePressure d2 safeIncome := by
  obtain ⟨b0, b1, b2, b3, b4, b5, b6⟩ := basePressure_le_of_le d1 safeIncome
  show basePressure d1 safeIncome ≤
    (if d2 ≤ 0 then 0
      else if d2 ≤ safeIncome * (3 / 10) then 10
      else if d2 ≤ safeIncome * (6 / 10) then 25
      else if d2 ≤ safeIncome * (9 / 10) then 40
      else if d2 ≤ safeIncome * (12 / 10) then 55
      else if d2 ≤ safeIncome * (18 / 10) then 75
      else 90)
  split_ifs with h0 h1 h2 h3 h4 h5
  · exact b0 (le_trans h h0)
  · exact b1 (le_trans h h1)
  · exact b2 (le_trans h h2)
  · exact b3 (le_trans h h3)
  · exact b4 (le_trans h h4)
  · exact b5 (le_trans h h5)
  · exact b6

theorem jsRound_mono (x y : ℚ) (h : x ≤ y) : jsRound x ≤ jsRound y := by
  unfold jsRound
  exact Int.floor_mono (by linarith)

/-- More money never raises the unrounded total, for a target with positive
remaining days and positive accumulated amount. -/
theorem totalPressure_antitone_money (s : State) (config : Config) (t : Target) (m2 : ℚ)
    (hm : s.currentMoney ≤ m2)
    (hrem : 0 < (t.deadlineAge - s.currentAge) * 365 - s.currentDayInYear)
    (hacc : 0 < t.acc) :
    totalPressure { s with currentMoney := m2 } config t ≤ totalPressure s config t := by
  unfold totalPressure
  simp only
  apply min_le_min (le_refl _)
  have hbase := basePressure_mono
    ((t.acc - m2) / ((t.deadlineAge - s.currentAge) * 365 - s.currentDayInYear))
    ((t.acc - s.currentMoney) / ((t.deadlineAge - s.currentAge) * 365 - s.currentDayInYear))
    (config.workIncome - config.dailyCost)
    (div_le_div_of_nonneg_right (by linarith) (le_of_lt hrem))
  have hprog : max 0 (((s.dayCount : ℚ) / ((t.deadlineAge - config.startAge) * 365)
        * t.acc - m2) / t.acc)
      ≤ max 0 (((s.dayCount : ℚ) / ((t.deadlineAge - config.startAge) * 365)
        * t.acc - s.currentMoney) / t.acc) :=
    max_le_max (le_refl _) (div_le_div_of_nonneg_right (by linarith) (le_of_lt hacc))
  linarith

/-- C19. For two states that differ only in `currentMoney`, `m1 <= m2`, with
a config set, `config.startAge <= currentAge` and positive target amounts,
`calculateRealPressure` returns for both and the pressure for `m2` is at most
the pressure for `m1`. Whenever the scoring branch is taken, for a target
`t`, both divisors formed besides the remaining days are positive. -/
theorem pressure_antitone_in_money (s : State) (config : Config) (m2 : ℚ)
    (hcfg : s.config = some config) (hm : s.currentMoney ≤ m2)
    (hage : config.startAge ≤ s.currentAge) (hamt : ∀ t ∈ s.targets, 0 < t.amount) :
    ∃ info1 info2, calculateRealPressure s = some info1
      ∧ calculateRealPressure { s with currentMoney := m2 } = some info2
      ∧ info2.pressure ≤ info1.pressure
      ∧ ∀ t, info1.currentTarget = some t →
          0 < (t.deadlineAge - s.currentAge) * 365 - s.currentDayInYear →
          0 < (t.deadlineAge - config.startAge) * 365 ∧ 0 < t.acc := by
  cases hact : ((getAccumulatedTargets s.targets).filter (isActive s.currentAge)).head? with
  | none =>
    have hnil : (getAccumulatedTargets s.targets).filter (isActive s.currentAge) = [] :=
      List.head?_eq_none_iff.mp hact
    obtain ⟨i1, h1, p1, c1, -⟩ := calculateRealPressure_no_active s hnil
    obtain ⟨i2, h2, p2, -, -⟩ :=
      calculateRealPressure_no_active { s with currentMoney := m2 } hnil
    refine ⟨i1, i2, h1, h2, by rw [p1, p2], fun t ht => ?_⟩
    rw [c1] at ht; exact absurd ht (by simp)
  | some t =>
    by_cases hrem : (t.deadlineAge - s.currentAge) * 365 - s.currentDayInYear ≤ 0
    · refine ⟨_, _, calculateRealPressure_deadline s t hact hrem,
        calculateRealPressure_deadline { s with currentMoney := m2 } t hact hrem,
        le_refl _, fun u hu hpos => ?_⟩
      simp only [Option.some.injEq] at hu
      subst hu
      exact absurd hrem (not_le.mpr hpos)
    · have hpos : 0 < (t.deadlineAge - s.currentAge) * 365 - s.currentDayInYear :=
        not_le.mp hrem
      obtain ⟨hdays, hacc⟩ := scoring_divisors_pos s config t hage hamt hact hpos
      refine ⟨_, _, calculateRealPressure_scoring s config t hcfg hact hpos,
        calculateRealPressure_scoring { s with currentMoney := m2 } config t hcfg hact hpos,
        jsRound_mono _ _ (totalPressure_antitone_money s config t m2 hm hpos hacc),
        fun u hu _ => ?_⟩
      simp only [Option.some.injEq] at hu
      subst hu
      exact ⟨hdays, hacc⟩

/-- C19: witness: the mid-run state with 20000 and with 30000 saved. -/
theorem pressure_antitone_in_money_witness :
    midRunState.config = some sampleConfig
    ∧ midRunState.currentMoney ≤ 30000
    ∧ (calculateRealPressure midRunState).map (fun info => info.pressure) = some 28
    ∧ (calculateRealPressure { midRunState with currentMoney := 30000 }).map
        (fun info => info.pressure) = some 28
    ∧ (calculateRealPressure { midRunState with currentMoney := 0 }).map
        (fun info => info.pressure) = some 40
    ∧ ∃ info1 info2, calculateRealPressure midRunState = some info1
      ∧ calculateRealPressure { midRunState with currentMoney := 30000 } = some info2
      ∧ info2.pressure ≤ info1.pressure
      ∧ ∀ t, info1.currentTarget = some t →
          0 < (t.deadlineAge - midRunState.currentAge) * 365 - midRunState.currentDayInYear →
          0 < (t.deadlineAge - sampleConfig.startAge) * 365 ∧ 0 < t.acc :=
  ⟨rfl, by decide!, by decide!, by decide!, by decide!,
    pressure_antitone_in_money midRunState sampleConfig 30000 rfl (by decide!) (by decide!)
      (by decide!)⟩

/-- Accumulation keeps, for every target, its completion flag and deadline. -/
theorem accumulateFrom_mem (a : ℚ) (l : List Target) (u : Target)
    (hu : u ∈ accumulateFrom a l) :
    ∃ t ∈ l, u.completed = t.completed ∧ u.deadlineAge = t.deadlineAge := by
  induction l generalizing a with
  | nil => simp [accumulateFrom] at hu
  | cons t rest ih =>
    simp only [accumulateFrom, List.mem_cons] at hu
    rcases hu with hu | hu
    · exact ⟨t, List.mem_cons_self _ _, by rw [hu], by rw [hu]⟩
    · obtain ⟨v, hv, h1, h2⟩ := ih _ hu
      exact ⟨v, List.mem_cons_of_mem _ hv, h1, h2⟩

theorem getAccumulatedTargets_mem (targets : List Target) (u : Target)
    (hu : u ∈ getAccumulatedTargets targets) :
    ∃ t ∈ targets, u.completed = t.completed ∧ u.deadlineAge = t.deadlineAge := by
  obtain ⟨t, ht, h1, h2⟩ := accumulateFrom_mem 0 (sortByDeadline targets) u hu
  exact ⟨t, (sortByDeadline_perm targets).mem_iff.mp ht, h1, h2⟩

/-- C20. For a state with a non-empty target list in which every target that
is not completed has `deadlineAge < currentAge`, `calculateRealPressure`
returns pressure 0 with the label `全部完成` and no current target. And when
the accumulated list begins with targets that are completed or have
`deadlineAge < currentAge` and then holds a target `t` that is not completed
with `currentAge <= deadlineAge`, the pressure is computed against `t`: `t` is
the current target, the remaining money is taken from `t`, and the pressure
is the rounded total for `t` when `t` has days remaining (100 only when `t`
itself has none). -/
theorem expired_targets_are_skipped (s : State) :
    (s.targets ≠ [] →
      (∀ t ∈ s.targets, t.completed = false → t.deadlineAge < s.currentAge) →
      calculateRealPressure s
        = some { pressure := 0, emoji := "🎉", text := "全部完成", currentTarget := none,
                 remainingMoney := none, remainingDays := none, dailyRequired := none })
    ∧ (∀ (config : Config) (pre post : List Target) (t : Target),
      s.config = some config →
      getAccumulatedTargets s.targets = pre ++ t :: post →
      (∀ u ∈ pre, u.completed = true ∨ u.deadlineAge < s.currentAge) →
      t.completed = false → s.currentAge ≤ t.deadlineAge →
      ∃ info, calculateRealPressure s = some info
        ∧ info.currentTarget = some t
        ∧ info.remainingMoney = some (t.acc - s.currentMoney)
        ∧ (0 < (t.deadlineAge - s.currentAge) * 365 - s.currentDayInYear →
            info.pressure = jsRound (totalPressure s config t))
        ∧ ((t.deadlineAge - s.currentAge) * 365 - s.currentDayInYear ≤ 0 →
            info.pressure = 100)) := by
  constructor
  · intro hne hall
    have hnil : (getAccumulatedTargets s.targets).filter (isActive s.currentAge) = [] := by
      rw [List.filter_eq_nil_iff]
      intro u hu hactive
      obtain ⟨t, ht, hc, hd⟩ := getAccumulatedTargets_mem s.targets u hu
      simp only [isActive, Bool.and_eq_true, Bool.not_eq_true', decide_eq_true_eq] at hactive
      have := hall t ht (by rw [← hc]; exact hactive.1)
      rw [← hd] at this
      exact absurd hactive.2 (not_le.mpr this)
    unfold calculateRealPressure
    have hlen : ¬ s.targets.length = 0 := fun h => hne (List.length_eq_zero.mp h)
    simp only [hlen, if_false, hnil]
  · intro config pre post t hcfg hsplit hpre hcomp hdl
    have hfpre : pre.filter (isActive s.currentAge) = [] := by
      rw [List.filter_eq_nil_iff]
      intro u hu hactive
      simp only [isActive, Bool.and_eq_true, Bool.not_eq_true', decide_eq_true_eq] at hactive
      rcases hpre u hu with h | h
      · rw [h] at hactive; exact absurd hactive.1 (by simp)
      · exact absurd hactive.2 (not_le.mpr h)
    have hta : isActive s.currentAge t = true := by
      simp [isActive, hcomp, hdl]
    have hact : ((getAccumulatedTargets s.targets).filter (isActive s.currentAge)).head?
        = some t := by
      rw [hsplit, List.filter_append, hfpre, List.nil_append, List.filter_cons, hta]
      rfl
    by_cases hrem : (t.deadlineAge - s.currentAge) * 365 - s.currentDayInYear ≤ 0
    · exact ⟨_, calculateRealPressure_deadline s t hact hrem, rfl, rfl,
        fun hpos => absurd hrem (not_le.mpr hpos), fun _ => rfl⟩
    · exact ⟨_, calculateRealPressure_scoring s config t hcfg hact (not_le.mp hrem), rfl, rfl,
        fun _ => rfl, fun h => absurd h hrem⟩

/-- C20: witness: the car due at 21 has expired uncompleted at age 22 and the
pressure, 30, is computed against the house due at 25; at age 26 both have
expired and the result is pressure 0, `全部完成`. -/
theorem expired_targets_are_skipped_witness :
    calculateRealPressure allExpiredState
      = some { pressure := 0, emoji := "🎉", text := "全部完成", currentTarget := none,
               remainingMoney := none, remainingDays := none, dailyRequired := none }
    ∧ (calculateRealPressure expiredFirstState).map (fun info => info.pressure) = some 30
    ∧ ∃ info, calculateRealPressure expiredFirstState = some info
        ∧ info.currentTarget = some { rawTarget "house" 36500 25 with
            accumulatedAmount := some 36600, remainingAmount := some 36600 }
        ∧ info.remainingMoney = some (36600 - 50) :=
  ⟨(expired_targets_are_skipped allExpiredState).1 (by decide!) (by decide!),
    by decide!,
    by
      obtain ⟨info, h1, h2, h3, -, -⟩ :=
        (expired_targets_are_skipped expiredFirstState).2 sampleConfig
          [{ rawTarget "car" 100 21 with
              accumulatedAmount := some 100, remainingAmount := some 100 }]
          []
          { rawTarget "house" 36500 25 with
            accumulatedAmount := some 36600, remainingAmount := some 36600 }
          rfl (by decide!) (by decide!) rfl (by decide!)
      exact ⟨info, h1, h2, h3⟩⟩

/-! ## Invariants of a run -/

/-- What `resume` keeps. -/
theorem resume_fields (s s1 : State) (config : Option Config) (targets : Option (List Target))
    (h : resume s config targets = some s1) :
    s1.currentMoney = s.currentMoney ∧ s1.stats = s.stats ∧ s1.dayCount = s.dayCount
    ∧ s1.currentAge = s.currentAge ∧ s1.currentDayInYear = s.currentDayInYear
    ∧ s1.history = s.history ∧ s1.logs = s.logs
    ∧ ∀ old, s.config = some old →
        ∃ new, s1.config = some new ∧ new.startAge = old.startAge := by
  unfold resume at h
  cases config with
  | none =>
    cases targets with
    | none =>
      simp only [Option.some.injEq] at h; subst h
      exact ⟨rfl, rfl, rfl, rfl, rfl, rfl, rfl, fun old ho => ⟨old, ho, rfl⟩⟩
    | some ts =>
      simp only [Option.some.injEq] at h; subst h
      exact ⟨rfl, rfl, rfl, rfl, rfl, rfl, rfl, fun old ho => ⟨old, ho, rfl⟩⟩
  | some c =>
    cases hc : s.config with
    | none => simp [hc] at h
    | some old0 =>
      cases targets with
      | none =>
        simp only [hc, Option.some.injEq] at h; subst h
        refine ⟨rfl, rfl, rfl, rfl, rfl, rfl, rfl, fun old ho => ⟨_, rfl, ?_⟩⟩
        simp only [Option.some.injEq] at ho; rw [ho]
      | some ts =>
        simp only [hc, Option.some.injEq] at h; subst h
        refine ⟨rfl, rfl, rfl, rfl, rfl, rfl, rfl, fun old ho => ⟨_, rfl, ?_⟩⟩
        simp only [Option.some.injEq] at ho; rw [ho]

/-- The net income of an action is its income less the daily cost. -/
theorem executeAction_net (action : Action) (config : Config) (random : ℚ) :
    (executeAction action config random).netIncome
      = (executeAction action config random).income - config.dailyCost := by
  cases action with
  | work => rfl
  | gamble =>
    unfold executeAction
    simp only
    split <;> rfl

/-- The writes of a committed day to the ledger and the calendar. -/
theorem committedState_fields (s : State) (config : Config) (info : PressureInfo)
    (d : Decision) (random : ℚ) :
    (committedState s config info d random).1.config = s.config
    ∧ (committedState s config info d random).1.currentMoney
        = s.currentMoney + (executeAction d.action config random).netIncome
    ∧ (committedState s config info d random).1.stats.totalIncome
        = s.stats.totalIncome + (executeAction d.action config random).income
    ∧ (committedState s config info d random).1.stats.totalExpenses
        = s.stats.totalExpenses + config.dailyCost
    ∧ (committedState s config info d random).1.dayCount = s.dayCount + 1
    ∧ (committedState s config info d random).1.currentDayInYear
        = (if s.currentDayInYear + 1 > 365 then 1 else s.currentDayInYear + 1)
    ∧ (committedState s config info d random).1.currentAge
        = (if s.currentDayInYear + 1 > 365 then s.currentAge + 1 else s.currentAge) := by
  refine ⟨rfl, rfl, ?_, ?_, rfl, rfl, rfl⟩
  · simp only [committedState]; split <;> rfl
  · simp only [committedState]; split <;> rfl

/-- The states a handled `step` can leave, seen from the ledger and the
calendar: the state before, possibly with a flag changed, or a committed day. -/
theorem step_state_cases (attempts : List Attempt) (random : ℚ) (s s2 : State)
    (response : StepResponse) (h : step attempts random s = StepOutcome.done response s2) :
    (∃ (b1 b2 : Bool), s2 = { s with isRunning := b1, isPaused := b2 })
    ∨ (∃ (config : Config) (info : PressureInfo) (d : Decision) (s1 : State) (b : Bool),
        s.config = some config ∧ (s1 = s ∨ s1 = pause s)
        ∧ s2 = { (committedState s1 config info d random).1 with isRunning := b }) := by
  rcases step_done_cases attempts random s s2 response h with
    ⟨-, hs, -⟩ | ⟨config, -, -, -, -, hs⟩ | ⟨config, -, -, -, -, hs⟩
    | ⟨config, info, d, s1, hcfg, -, -, -, -, hs1, -, hs2⟩
  · exact Or.inl ⟨s.isRunning, s.isPaused, by rw [hs]⟩
  · exact Or.inl ⟨false, s.isPaused, by rw [hs]⟩
  · exact Or.inl ⟨s.isRunning, true, by rw [hs]⟩
  · obtain ⟨b, hb⟩ := commitDay_state s1 config info d random
    exact Or.inr ⟨config, info, d, s1, b, hcfg, hs1, by rw [hs2, hb]⟩

/-- A run of `runDays` from a state of a run ends in a state of the run. -/
theorem runDays_runState (attempt : Attempt) (random : ℚ) (h0 : 0 ≤ random) (h1 : random < 1)
    (n : ℕ) (s s2 : State) (hs : RunState s) (h : runDays attempt random n s = some s2) :
    RunState s2 := by
  induction n generalizing s2 with
  | zero =>
    simp only [runDays, Option.some.injEq] at h
    rw [← h]; exact hs
  | succ n ih =>
    unfold runDays at h
    cases hr : runDays attempt random n s with
    | none => rw [hr] at h; simp at h
    | some s1 =>
      rw [hr] at h
      simp only at h
      cases hstep : step [attempt] random s1 with
      | threw => rw [hstep] at h; simp at h
      | pending => rw [hstep] at h; simp at h
      | done response s3 =>
        rw [hstep] at h
        simp only at h
        split at h
        · simp only [Option.some.injEq] at h
          subst h
          exact RunState.step s1 s3 [attempt] random response (ih s1 hr) h0 h1 hstep
        · simp at h

/-- The ledger over a run. -/
theorem runState_ledger (s : State) (h : RunState s) :
    s.currentMoney = s.stats.totalIncome - s.stats.totalExpenses := by
  induction h with
  | start config targets speed => simp [start, resetState]
  | pause s _ ih => exact ih
  | resume s s1 config targets _ hr ih =>
    obtain ⟨h1, h2, -⟩ := resume_fields s s1 config targets hr
    rw [h1, h2]; exact ih
  | step s s1 attempts random response _ _ _ hstep ih =>
    rcases step_state_cases attempts random s s1 response hstep with
      ⟨b1, b2, hs⟩ | ⟨config, info, d, s0, b, -, hs0, hs⟩
    · rw [hs]; exact ih
    · obtain ⟨-, g2, g3, g4, -⟩ := committedState_fields s0 config info d random
      have hs0m : s0.currentMoney = s0.stats.totalIncome - s0.stats.totalExpenses := by
        rcases hs0 with h | h <;> rw [h] <;> exact ih
      rw [hs]
      show (committedState s0 config info d random).1.currentMoney
        = (committedState s0 config info d random).1.stats.totalIncome
          - (committedState s0 config info d random).1.stats.totalExpenses
      rw [g2, g3, g4, executeAction_net, hs0m]; ring

/-- The timeout branch of `step` (lines 341-350). -/
theorem step_timeout_branch (attempts : List Attempt) (random : ℚ) (s : State)
    (config : Config) (hrun : s.isRunning = true)
    (hwait : ¬ (s.isPaused = true ∧ s.isWaitingForResume = true))
    (hcfg : s.config = some config) (hage : s.currentAge ≥ config.deadlineAge) :
    step attempts random s
      = StepOutcome.done (StepResponse.finished "timeout") { s with isRunning := false } := by
  unfold step
  have hg : (!s.isRunning || (s.isPaused && s.isWaitingForResume)) = false := by
    rw [hrun]
    cases hp : s.isPaused <;> cases hw : s.isWaitingForResume <;> simp_all
  simp only [hg, hcfg, hage]
  simp

/-- A `step` answers `finished` with reason `timeout` only from the timeout
branch. -/
theorem step_timeout_inv (attempts : List Attempt) (random : ℚ) (s : State) (config : Config)
    (hcfg : s.config = some config)
    (h : (step attempts random s).response = some (StepResponse.finished "timeout")) :
    s.currentAge ≥ config.deadlineAge := by
  cases hstep : step attempts random s with
  | threw => rw [hstep] at h; simp [StepOutcome.response] at h
  | pending => rw [hstep] at h; simp [StepOutcome.response] at h
  | done response s2 =>
    rw [hstep] at h
    simp only [StepOutcome.response, Option.some.injEq] at h
    subst h
    rcases step_done_cases attempts random s s2 _ hstep with
      ⟨hresp, -, -⟩ | ⟨config2, hcfg2, -, hage, -, -⟩ | ⟨config2, -, -, -, hresp, -⟩
      | ⟨config2, info, d, s1, -, -, -, -, -, -, hresp, -⟩
    · exact absurd hresp (by simp)
    · rw [hcfg] at hcfg2
      simp only [Option.some.injEq] at hcfg2
      rw [hcfg2]; exact hage
    · exact absurd hresp (by simp)
    · have hc := commitDay_committed s1 config2 info d random
      rw [← hresp] at hc
      exact absurd hc (by decide)

/-- The calendar over a run: the age is the start age plus a whole number
`k` of years, and `dayCount` counts `365 * k` days and the days of the
current year before today. -/
theorem runState_calendar (s : State) (h : RunState s) :
    ∃ (config : Config) (k : ℕ), s.config = some config
      ∧ s.currentAge = config.startAge + k
      ∧ 1 ≤ s.currentDayInYear ∧ s.currentDayInYear ≤ 365
      ∧ s.dayCount + 1 = 365 * k + s.currentDayInYear := by
  induction h with
  | start config targets speed =>
    exact ⟨config, 0, rfl, by simp [start], by simp [start, resetState],
      by simp [start, resetState], by simp [start, resetState]⟩
  | pause s _ ih => exact ih
  | resume s s1 config targets _ hr ih =>
    obtain ⟨cfg, k, hcfg, hage, hd1, hd2, hcount⟩ := ih
    obtain ⟨-, -, h3, h4, h5, -, -, hnew⟩ := resume_fields s s1 config targets hr
    obtain ⟨new, hn, hstart⟩ := hnew cfg hcfg
    exact ⟨new, k, hn, by rw [h4, hstart, hage], by rw [h5]; exact hd1, by rw [h5]; exact hd2,
      by rw [h3, h5]; exact hcount⟩
  | step s s1 attempts random response _ _ _ hstep ih =>
    obtain ⟨cfg, k, hcfg, hage, hd1, hd2, hcount⟩ := ih
    rcases step_state_cases attempts random s s1 response hstep with
      ⟨b1, b2, hs⟩ | ⟨config, info, d, s0, b, -, hs0, hs⟩
    · rw [hs]; exact ⟨cfg, k, hcfg, hage, hd1, hd2, hcount⟩
    · obtain ⟨g1, -, -, -, g5, g6, g7⟩ := committedState_fields s0 config info d random
      have e1 : s0.config = s.config := by
        rcases hs0 with h | h
        · rw [h]
        · rw [h]; rfl
      have e2 : s0.currentAge = s.currentAge := by
        rcases hs0 with h | h
        · rw [h]
        · rw [h]; rfl
      have e3 : s0.currentDayInYear = s.currentDayInYear := by
        rcases hs0 with h | h
        · rw [h]
        · rw [h]; rfl
      have e4 : s0.dayCount = s.dayCount := by
        rcases hs0 with h | h
        · rw [h]
        · rw [h]; rfl
      rw [hs]
      show ∃ (c : Config) (k2 : ℕ),
        (committedState s0 config info d random).1.config = some c
        ∧ (committedState s0 config info d random).1.currentAge = c.startAge + k2
        ∧ 1 ≤ (committedState s0 config info d random).1.currentDayInYear
        ∧ (committedState s0 config info d random).1.currentDayInYear ≤ 365
        ∧ (committedState s0 config info d random).1.dayCount + 1
            = 365 * k2 + (committedState s0 config info d random).1.currentDayInYear
      rw [g1, g5, g6, g7, e1, e2, e3, e4]
      by_cases hy : s.currentDayInYear + 1 > 365
      · refine ⟨cfg, k + 1, hcfg, ?_, ?_, ?_, ?_⟩
        · rw [if_pos hy, hage]; push_cast; ring
        · rw [if_pos hy]
        · rw [if_pos hy]; norm_num
        · rw [if_pos hy]; omega
      · refine ⟨cfg, k, hcfg, ?_, ?_, ?_, ?_⟩
        · rw [if_neg hy, hage]
        · rw [if_neg hy]; omega
        · rw [if_neg hy]; omega
        · rw [if_neg hy]; omega

/-! ## Doubles are exact on whole numbers below `2 ^ 53` -/

theorem bitLength_le (fuel p n : ℕ) (h : p < 2 ^ n) : bitLength fuel p ≤ n := by
  induction fuel generalizing p n with
  | zero => simp [bitLength]
  | succ fuel ih =>
    unfold bitLength
    split
    · exact Nat.zero_le _
    · rename_i hp
      cases n with
      | zero => simp at h; exact absurd h hp
      | succ n =>
        have : p / 2 < 2 ^ n := by
          rw [Nat.div_lt_iff_lt_mul (by norm_num)]
          rw [pow_succ] at h
          exact h
        exact Nat.succ_le_succ (ih (p / 2) n this)

theorem binaryExponent_intCast_le (z : ℤ) (h : |z| < 2 ^ 53) :
    binaryExponent (z : ℚ) ≤ 52 := by
  have hp : z.natAbs < 2 ^ 53 := by
    have : (z.natAbs : ℤ) < 2 ^ 53 := by rw [Int.natCast_natAbs]; exact h
    exact_mod_cast this
  have hb := bitLength_le 2200 z.natAbs 53 hp
  have hden : bitLength 2200 1 = 1 := by decide
  unfold binaryExponent
  simp only [Rat.num_intCast, Rat.den_intCast, hden]
  split <;> omega

theorem roundHalfEven_intCast (n : ℤ) : roundHalfEven (n : ℚ) = n := by
  unfold roundHalfEven
  simp

/-- A whole number below `2 ^ 53` in absolute value is a double. -/
theorem roundDouble_intCast (z : ℤ) (h : |z| < 2 ^ 53) : roundDouble (z : ℚ) = z := by
  unfold roundDouble
  split
  · rename_i hz; rw [hz]
  · have he := binaryExponent_intCast_le z h
    obtain ⟨k, hk⟩ : ∃ k : ℕ, binaryExponent (z : ℚ) - 52 = -(k : ℤ) :=
      ⟨(52 - binaryExponent (z : ℚ)).toNat, by omega⟩
    rw [hk, zpow_neg, zpow_natCast]
    have h2 : ((2 : ℚ) ^ k) ≠ 0 := pow_ne_zero _ (by norm_num)
    have hm : (z : ℚ) / ((2 : ℚ) ^ k)⁻¹ = ((z * 2 ^ k : ℤ) : ℚ) := by
      push_cast; field_simp
    rw [hm, roundHalfEven_intCast]
    push_cast
    field_simp

/-! ## A pause request and the step in flight -/

/-- Failed attempts during which no pause arrives leave the retry loop where
it was. -/
theorem makeAIDecision_skip_failed (s : State) (failed tail : List Attempt)
    (hnp : s.isPaused = false)
    (hfailed : ∀ a ∈ failed, a.reply = none ∧ a.pauseArrives = false) :
    makeAIDecision s (failed ++ tail) = makeAIDecision s tail := by
  induction failed with
  | nil => rfl
  | cons a failed ih =>
    obtain ⟨hr, hp⟩ := hfailed a (List.mem_cons_self _ _)
    rw [List.cons_append]
    conv_lhs => unfold makeAIDecision
    simp only [hnp, hr, hp, Bool.false_eq_true, if_false]
    exact ih (fun b hb => hfailed b (List.mem_cons_of_mem _ hb))

/-- C2, amended. In a running, not-paused state with
`currentAge < config.deadlineAge`: `pause()` followed by `step()` is rejected
(`success: false`, `paused: true`) and commits no day, the state staying as
`pause()` left it, and a further `step()` is rejected the same way. When
instead the pause request is handled while `step` awaits the attempt that
returns the decision (after any number of failed attempts during which no
pause arrived), exactly one day is committed (`dayCount` and
`stats.totalDays` rise by one, `currentMoney` changes by the action's
`netIncome`, one log entry is appended), `isWaitingForResume` is set, and a
further `step()` is rejected with no mutation. When the pause request is
handled during an attempt that fails, the next pass observes the flag: the
step is rejected and no day is committed. -/
theorem pause_then_step (attempts attempts2 failed rest : List Attempt) (random random2 : ℚ)
    (s : State) (config : Config) (d : Decision)
    (hrun : s.isRunning = true) (hnp : s.isPaused = false)
    (hcfg : s.config = some config) (hage : s.currentAge < config.deadlineAge)
    (hfailed : ∀ a ∈ failed, a.reply = none ∧ a.pauseArrives = false) :
    (∃ message, step attempts random (pause s)
        = StepOutcome.done (StepResponse.rejected message) (pause s))
    ∧ (∃ message, step attempts2 random2 (pause s)
        = StepOutcome.done (StepResponse.rejected message) (pause s))
    ∧ (∃ response s2,
        step (failed ++ { reply := some d, pauseArrives := true } :: rest) random s
          = StepOutcome.done response s2
        ∧ s2.dayCount = s.dayCount + 1
        ∧ s2.stats.totalDays = s.stats.totalDays + 1
        ∧ s2.currentMoney = s.currentMoney + (executeAction d.action config random).netIncome
        ∧ s2.logs.length = s.logs.length + 1
        ∧ s2.isWaitingForResume = true
        ∧ step attempts2 random2 s2
          = StepOutcome.done (StepResponse.rejected "已暂停，等待继续") s2)
    ∧ step (failed ++ { reply := none, pauseArrives := true } :: rest) random s
        = StepOutcome.done (StepResponse.rejected "模拟已暂停") (pause s) := by
  have hrej : ∀ (as : List Attempt) (r : ℚ), ∃ message, step as r (pause s)
      = StepOutcome.done (StepResponse.rejected message) (pause s) := by
    intro as r
    have hc : makeAIDecision (pause s) as = some (DecisionOutcome.cancelled, pause s) := by
      cases as <;> simp [makeAIDecision, pause]
    exact (step_cancel_state as r (pause s) (pause s) config hrun hcfg hage hc).1
  obtain ⟨info, hinfo⟩ := calculateRealPressure_isSome s config hcfg
  have hg : (!s.isRunning || (s.isPaused && s.isWaitingForResume)) = false := by
    simp [hrun, hnp]
  refine ⟨hrej attempts random, hrej attempts2 random2, ?_, ?_⟩
  · have hd : makeAIDecision s (failed ++ { reply := some d, pauseArrives := true } :: rest)
        = some (DecisionOutcome.decided d, pause s) := by
      rw [makeAIDecision_skip_failed s failed _ hnp hfailed]
      simp [makeAIDecision, hnp]
    have hstep := step_commit _ random s (pause s) config info d hg hcfg hage hinfo hd
    obtain ⟨h1, h2, h3, h4, h5, h6⟩ := commitDay_fields (pause s) config info d random
    refine ⟨_, _, hstep, h1, h2, h3, h4, h6 rfl, ?_⟩
    exact step_guard_rejects attempts2 random2 _ (Or.inr ⟨h5, h6 rfl⟩)
  · have hd : makeAIDecision s (failed ++ { reply := none, pauseArrives := true } :: rest)
        = some (DecisionOutcome.cancelled, pause s) := by
      rw [makeAIDecision_skip_failed s failed _ hnp hfailed]
      cases rest <;> simp [makeAIDecision, hnp, pause]
    have hage2 : ¬ s.currentAge ≥ config.deadlineAge := not_le.mpr hage
    unfold step
    simp only [hg, hcfg, hage2, hinfo, hd]
    simp

/-- C2, amended: witness: after `start`, a `pause()` before the `step()`
commits no day; a pause handled during the second attempt, which returns the
decision, commits one; a pause handled during a first attempt that fails
commits none. -/
theorem pause_then_step_witness :
    startedOne.isRunning = true ∧ startedOne.isPaused = false
    ∧ startedOne.currentAge < sampleConfig.deadlineAge
    ∧ (∃ message, step [workAttempt] 0 (pause startedOne)
        = StepOutcome.done (StepResponse.rejected message) (pause startedOne))
    ∧ (step [failedAttempt, workPausedAttempt] 0 startedOne).finalState.map
        (fun s => (s.dayCount, s.currentMoney, s.isWaitingForResume))
        = some (1, 150, true)
    ∧ step ([failedAttempt] ++ { reply := none, pauseArrives := true } :: [workAttempt]) 0
        startedOne
      = StepOutcome.done (StepResponse.rejected "模拟已暂停") (pause startedOne) :=
  ⟨rfl, rfl, by decide!,
    (pause_then_step [workAttempt] [workAttempt] [failedAttempt] [workAttempt] 0 0 startedOne
      sampleConfig workDecision rfl rfl rfl (by decide!) (by decide)).1,
    by decide!,
    (pause_then_step [workAttempt] [workAttempt] [failedAttempt] [workAttempt] 0 0 startedOne
      sampleConfig workDecision rfl rfl rfl (by decide!) (by decide)).2.2.2⟩

/-! ## The label and the unrounded total -/

/-- C16, amended. For a state with a config set, `config.startAge <=
currentAge` and positive target amounts, on the scoring branch (an active
target `t` with positive remaining days): the divisors formed are positive,
so the total is a number; the returned label is the band, by the fixed
thresholds, of the unrounded total `min(100, base + time + failure +
progress)`, and the returned pressure is that total rounded to the nearest
integer. -/
theorem label_matches_unrounded_total (s : State) (config : Config) (t : Target)
    (hcfg : s.config = some config) (hage : config.startAge ≤ s.currentAge)
    (hamt : ∀ u ∈ s.targets, 0 < u.amount)
    (hact : ((getAccumulatedTargets s.targets).filter (isActive s.currentAge)).head? = some t)
    (hrem : 0 < (t.deadlineAge - s.currentAge) * 365 - s.currentDayInYear) :
    0 < (t.deadlineAge - config.startAge) * 365 ∧ 0 < t.acc
    ∧ ∃ info, calculateRealPressure s = some info
      ∧ info.text = bandLabel (totalPressure s config t)
      ∧ info.pressure = jsRound (totalPressure s config t) := by
  obtain ⟨hdays, hacc⟩ := scoring_divisors_pos s config t hage hamt hact hrem
  rw [calculateRealPressure_scoring s config t hcfg hact hrem]
  exact ⟨hdays, hacc, _, rfl, pressureLabel_text _, rfl⟩

/-- C16, amended: witness, at the state of the counterexample. -/
theorem label_matches_unrounded_total_witness :
    labelGapState.config = some sampleConfig
    ∧ sampleConfig.startAge ≤ labelGapState.currentAge
    ∧ (0 < ((25 : ℚ) - sampleConfig.startAge) * 365 ∧ 0 < (36500 : ℚ)
      ∧ ∃ info, calculateRealPressure labelGapState = some info
        ∧ info.text = bandLabel (totalPressure labelGapState sampleConfig
            { rawTarget "house" 36500 25 with
              accumulatedAmount := some 36500, remainingAmount := some 36500 })
        ∧ info.pressure = jsRound (totalPressure labelGapState sampleConfig
            { rawTarget "house" 36500 25 with
              accumulatedAmount := some 36500, remainingAmount := some 36500 }))
    ∧ bandLabel (totalPressure labelGapState sampleConfig
          { rawTarget "house" 36500 25 with
            accumulatedAmount := some 36500, remainingAmount := some 36500 }) = "平稳"
    ∧ jsRound (totalPressure labelGapState sampleConfig
          { rawTarget "house" 36500 25 with
            accumulatedAmount := some 36500, remainingAmount := some 36500 }) = 15 :=
  ⟨rfl, by decide!,
    label_matches_unrounded_total labelGapState sampleConfig
      { rawTarget "house" 36500 25 with
        accumulatedAmount := some 36500, remainingAmount := some 36500 }
      rfl (by decide!) (by decide!) (by decide!) (by decide!),
    by decide!, by decide!⟩

/-! ## The sums of a run, in the doubles of the program -/

theorem runLedgerWith_snoc (fl : ℚ → ℚ) (l : Ledger) (days : List DayInput) (day : DayInput) :
    runLedgerWith fl l (days ++ [day]) = commitLedgerWith fl day (runLedgerWith fl l days) := by
  simp [runLedgerWith, List.foldl_append]

/-- Work days with whole-number income and cost: the money summed in doubles
is the exact product, as long as it stays below `2 ^ 53`. -/
theorem runLedger_work_double (config : Config) (W C : ℤ) (hW : config.workIncome = W)
    (hC : config.dailyCost = C) (m n : ℕ) (hn : n ≤ m)
    (hbound : (m : ℤ) * |W - C| < 2 ^ 53) :
    (runLedgerWith roundDouble startLedger
      (List.replicate n { config := config, action := Action.work, isWin := false })).currentMoney
      = n * ((W : ℚ) - C) := by
  induction n with
  | zero => simp [runLedgerWith, startLedger]
  | succ n ih =>
    have hm1 : (1 : ℤ) ≤ m := by omega
    have habs : (0 : ℤ) ≤ |W - C| := abs_nonneg _
    have hnet : |W - C| < 2 ^ 53 := by nlinarith
    have hsum : |((n : ℤ) + 1) * (W - C)| < 2 ^ 53 := by
      rw [abs_mul, abs_of_nonneg (by omega : (0 : ℤ) ≤ (n : ℤ) + 1)]
      have : ((n : ℤ) + 1) ≤ m := by omega
      nlinarith
    rw [List.replicate_succ', runLedgerWith_snoc]
    simp only [commitLedgerWith, actionResultWith]
    rw [ih (by omega), hW, hC]
    have e1 : roundDouble ((W : ℚ) - C) = (W : ℚ) - C := by
      have := roundDouble_intCast (W - C) hnet
      push_cast at this; exact this
    rw [e1]
    have e2 := roundDouble_intCast (((n : ℤ) + 1) * (W - C)) hsum
    push_cast at e2
    have e3 : (n : ℚ) * ((W : ℚ) - C) + ((W : ℚ) - C) = ((n : ℚ) + 1) * ((W : ℚ) - C) := by ring
    rw [e3, e2]
    push_cast
    ring

/-- C11, counterexample. With `workIncome = 200.1` and `dailyCost = 50`, ten
committed work days, each adding `workIncome - dailyCost` to `currentMoney`
in doubles, leave `1500.9999999999998` (the double `1501 - 2^-42`), which is
not `10 * (workIncome - dailyCost)`, be the product exact or formed in
doubles (`1501`). -/
theorem work_sum_rounds_in_doubles :
    (runLedgerWith roundDouble startLedger (List.replicate 10 fractionalWorkDay)).currentMoney
      = 1501 - 1 / 2 ^ 42
    ∧ (runLedgerWith roundDouble startLedger (List.replicate 10 fractionalWorkDay)).currentMoney
      ≠ 10 * (fractionalConfig.workIncome - fractionalConfig.dailyCost)
    ∧ roundDouble (10 * roundDouble (fractionalConfig.workIncome - fractionalConfig.dailyCost))
      = 1501 := by
  refine ⟨?_, ?_, ?_⟩ <;> decide!

/-- C11, amended. For every config whose `workIncome` and `dailyCost` are
whole numbers, every target list and every `n` with
`n * |workIncome - dailyCost| < 2 ^ 53`: if the first `n` `step` calls after
`start` each commit a day on the decision `work`, then afterwards
`currentMoney = n * (workIncome - dailyCost)`, `dayCount = n` and
`history.workDays = n`; and the money the program sums in doubles over these
days is that same number. -/
theorem all_work_run (config : Config) (targets : List Target) (speed : Option ℚ) (n : ℕ)
    (s : State) (W C : ℤ) (hW : config.workIncome = W) (hC : config.dailyCost = C)
    (hbound : (n : ℤ) * |W - C| < 2 ^ 53)
    (h : DayRun Action.work (start config targets speed) n s) :
    s.currentMoney = n * (config.workIncome - config.dailyCost)
    ∧ s.dayCount = n
    ∧ s.history.workDays = n
    ∧ (runLedgerWith roundDouble startLedger
        (List.replicate n { config := config, action := Action.work, isWin := false })).currentMoney
        = s.currentMoney := by
  obtain ⟨-, h2, h3, h4⟩ := dayRun_work (start config targets speed) s config n rfl h
  have hm : s.currentMoney = n * (config.workIncome - config.dailyCost) := by
    rw [h2]; simp [start, resetState]
  refine ⟨hm, ?_, ?_, ?_⟩
  · rw [h3]; simp [start, resetState]
  · rw [h4]; simp [start, resetState]
  · rw [runLedger_work_double config W C hW hC n n (le_refl n) hbound, hm, hW, hC]

/-- C11, amended: witness, the scenario of the specification. After `start`
with the sample config and the house of 36500 due at 25, a hundred `step`
calls that each obtain `work` commit a hundred days: `currentMoney = 15000`,
`dayCount = 100`, and the sum in doubles is 15000 too. The target is not
completed: the money is below its accumulated amount, no log entry of the
run names a completed target, and its stored flag is unset. -/
theorem all_work_run_witness :
    ∃ s, DayRun Action.work (start sampleConfig [rawTarget "house" 36500 25] none) 100 s
      ∧ s.currentMoney = 15000 ∧ s.dayCount = 100 ∧ s.history.workDays = 100
      ∧ (getAccumulatedTargets s.targets).map (fun t => decide (s.currentMoney < t.acc)) = [true]
      ∧ s.logs.all (fun e => e.completedTarget.isNone) = true
      ∧ s.targets.map (fun t => t.completed) = [false]
      ∧ (runLedgerWith roundDouble startLedger (List.replicate 100 sampleWorkDay)).currentMoney
          = 15000 := by
  have hev : (runDays workAttempt 0 100 startedHouse).map
      (fun s => ((getAccumulatedTargets s.targets).map (fun t => decide (s.currentMoney < t.acc)),
        s.logs.all (fun e => e.completedTarget.isNone),
        s.targets.map fun t => t.completed)) = some ([true], true, [false]) := by decide!
  obtain ⟨s, hs, ht⟩ := Option.map_eq_some'.mp hev
  simp only [Prod.mk.injEq] at ht
  have hrun : DayRun Action.work (start sampleConfig [rawTarget "house" 36500 25] none) 100 s :=
    runDays_dayRun workDecision false 0 (le_refl 0) (by norm_num) 100 startedHouse s hs
  obtain ⟨h1, h2, h3, h4⟩ :=
    all_work_run sampleConfig _ none 100 s 200 50 (by norm_num [sampleConfig])
      (by norm_num [sampleConfig]) (by norm_num) hrun
  have hm : s.currentMoney = 15000 := by rw [h1]; norm_num [sampleConfig]
  exact ⟨s, hrun, hm, h2, h3, ht.1, ht.2.1, ht.2.2, by rw [← hm]; exact h4⟩

/-! ## The ledger of a run, in the doubles of the program -/

/-- The exact `executeAction` is the replay with no rounding, on the outcome
of its own test. -/
theorem executeAction_eq_actionResultWith (action : Action) (config : Config) (random : ℚ) :
    executeAction action config random
      = actionResultWith id action config (decide (random * 100 < config.gambleWinRate)) := by
  cases action with
  | work => rfl
  | gamble =>
    by_cases hw : random * 100 < config.gambleWinRate
    · simp [executeAction, actionResultWith, hw]
    · simp [executeAction, actionResultWith, hw]

/-- The sums a committed day of the engine leaves are the replay of the day
with no rounding. -/
theorem ledgerOf_committedState (s : State) (config : Config) (info : PressureInfo)
    (d : Decision) (random : ℚ) :
    ledgerOf (committedState s config info d random).1
      = commitLedgerWith id
          { config := config, action := d.action,
            isWin := decide (random * 100 < config.gambleWinRate) }
          (ledgerOf s) := by
  obtain ⟨-, g2, g3, g4, -⟩ := committedState_fields s config info d random
  simp only [ledgerOf, commitLedgerWith, g2, g3, g4, executeAction_eq_actionResultWith, id]

/-- The config `resume` leaves: the stored one, or the supplied one with the
stored start age. -/
theorem resume_config (s s1 : State) (config : Option Config)
    (targets : Option (List Target)) (old : Config) (hold : s.config = some old)
    (h : resume s config targets = some s1) :
    s1.config = some (match config with
      | none => old
      | some c => { c with startAge := old.startAge }) := by
  unfold resume at h
  cases config with
  | none =>
    cases targets with
    | none => simp only [Option.some.injEq] at h; subst h; exact hold
    | some ts => simp only [Option.some.injEq] at h; subst h; exact hold
  | some c =>
    cases targets with
    | none => simp only [hold, Option.some.injEq] at h; subst h; rfl
    | some ts => simp only [hold, Option.some.injEq] at h; subst h; rfl

/-- With whole-number amounts the income and the net income of a day are
whole numbers, in doubles as in exact arithmetic. -/
theorem actionResult_whole (B : ℕ) (config : Config) (action : Action) (isWin : Bool)
    (hwhole : WholeAmounts B config) (hB : (2 : ℤ) * B < 2 ^ 53) :
    ∃ I C : ℤ, |I| ≤ B ∧ |C| ≤ B ∧ config.dailyCost = C
      ∧ (actionResultWith roundDouble action config isWin).income = I
      ∧ (actionResultWith roundDouble action config isWin).netIncome = ((I - C : ℤ) : ℚ)
      ∧ (actionResultWith id action config isWin).income = I
      ∧ (actionResultWith id action config isWin).netIncome = ((I - C : ℤ) : ℚ) := by
  obtain ⟨W, C, G, L, hW, hC, hG, hL, bW, bC, bG, bL⟩ := hwhole
  have key : ∀ I : ℤ, |I| ≤ B → roundDouble ((I : ℚ) - C) = ((I - C : ℤ) : ℚ) := by
    intro I hI
    have hlt : |I - C| < 2 ^ 53 := by
      have := abs_sub I C
      omega
    have := roundDouble_intCast (I - C) hlt
    push_cast at this ⊢
    exact this
  cases action with
  | work =>
    refine ⟨W, C, bW, bC, hC, ?_, ?_, ?_, ?_⟩
    · simp [actionResultWith, hW]
    · simp only [actionResultWith, hW, hC]; exact key W bW
    · simp [actionResultWith, hW]
    · simp only [actionResultWith, hW, hC, id]; push_cast; rfl
  | gamble =>
    cases isWin with
    | true =>
      refine ⟨G, C, bG, bC, hC, ?_, ?_, ?_, ?_⟩
      · simp [actionResultWith, hG]
      · simp only [actionResultWith, hG, hC, if_true]; exact key G bG
      · simp [actionResultWith, hG]
      · simp only [actionResultWith, hG, hC, id, if_true]; push_cast; rfl
    | false =>
      have bL2 : |(-L)| ≤ (B : ℤ) := by rw [abs_neg]; exact bL
      refine ⟨-L, C, bL2, bC, hC, ?_, ?_, ?_, ?_⟩
      · simp [actionResultWith, hL]
      · simp only [actionResultWith, hL, hC, Bool.false_eq_true, if_false]
        have := key (-L) bL2
        push_cast at this ⊢
        exact this
      · simp [actionResultWith, hL]
      · simp only [actionResultWith, hL, hC, id, Bool.false_eq_true, if_false]; push_cast; rfl

/-- Over days with whole-number amounts, the sums the program forms in
doubles are the exact sums, they are whole numbers, and the money is the
income less the expenses. -/
theorem runLedger_whole (B : ℕ) (days : List DayInput)
    (hwhole : ∀ d ∈ days, WholeAmounts B d.config)
    (hbound : (days.length : ℤ) * (2 * B) < 2 ^ 53) :
    ∃ T E : ℤ,
      runLedgerWith roundDouble startLedger days
        = { currentMoney := ((T - E : ℤ) : ℚ), totalIncome := T, totalExpenses := E }
      ∧ runLedgerWith id startLedger days
        = { currentMoney := ((T - E : ℤ) : ℚ), totalIncome := T, totalExpenses := E }
      ∧ |T| ≤ days.length * B ∧ |E| ≤ days.length * B := by
  induction days using List.reverseRecOn with
  | nil => exact ⟨0, 0, by simp [runLedgerWith, startLedger], by simp [runLedgerWith, startLedger],
      by simp, by simp⟩
  | append_singleton days d ih =>
    have hlen : (days ++ [d]).length = days.length + 1 := by simp
    rw [hlen] at hbound ⊢
    push_cast at hbound
    have hB0 : (0 : ℤ) ≤ B := Int.natCast_nonneg _
    have hk0 : (0 : ℤ) ≤ days.length := Int.natCast_nonneg _
    have hkB : (0 : ℤ) ≤ (days.length : ℤ) * B := mul_nonneg hk0 hB0
    have hb : 2 * ((days.length : ℤ) * B) + 2 * B < 2 ^ 53 := by nlinarith
    obtain ⟨T, E, hd, hx, bT, bE⟩ :=
      ih (fun x hx => hwhole x (List.mem_append_left _ hx)) (by nlinarith)
    obtain ⟨I, C, bI, bC, hC, h1, h2, h3, h4⟩ :=
      actionResult_whole B d.config d.action d.isWin (hwhole d (by simp)) (by linarith)
    have bT' := abs_le.mp bT
    have bE' := abs_le.mp bE
    have bI' := abs_le.mp bI
    have bC' := abs_le.mp bC
    have r1 : roundDouble ((T : ℚ) + I) = ((T + I : ℤ) : ℚ) := by
      have := roundDouble_intCast (T + I) (by rw [abs_lt]; constructor <;> linarith)
      push_cast at this ⊢; exact this
    have r2 : roundDouble ((E : ℚ) + C) = ((E + C : ℤ) : ℚ) := by
      have := roundDouble_intCast (E + C) (by rw [abs_lt]; constructor <;> linarith)
      push_cast at this ⊢; exact this
    have r3 : roundDouble (((T - E : ℤ) : ℚ) + ((I - C : ℤ) : ℚ))
        = (((T + I) - (E + C) : ℤ) : ℚ) := by
      have := roundDouble_intCast ((T + I) - (E + C)) (by rw [abs_lt]; constructor <;> linarith)
      have e : ((T - E : ℤ) : ℚ) + ((I - C : ℤ) : ℚ) = (((T + I) - (E + C) : ℤ) : ℚ) := by
        push_cast; ring
      rw [e]; exact this
    refine ⟨T + I, E + C, ?_, ?_, ?_, ?_⟩
    · rw [runLedgerWith_snoc, hd]
      simp only [commitLedgerWith, h1, h2, hC, r1, r2, r3]
    · rw [runLedgerWith_snoc, hx]
      simp only [commitLedgerWith, h3, h4, hC, id]
      congr 1 <;> push_cast <;> ring
    · push_cast; rw [abs_le]; constructor <;> linarith
    · push_cast; rw [abs_le]; constructor <;> linarith

/-- Whole-number amounts do not depend on the start age. -/
theorem wholeAmounts_startAge (B : ℕ) (c : Config) (a : ℚ) (h : WholeAmounts B c) :
    WholeAmounts B { c with startAge := a } := h

/-- What a handled `step` leaves, with the day it commits: no day and the
state before, possibly with a flag changed, or a committed day. -/
theorem step_committedDay (attempts : List Attempt) (random : ℚ) (s s2 : State)
    (response : StepResponse) (h : step attempts random s = StepOutcome.done response s2) :
    (committedDay attempts random s = none
      ∧ ∃ (b1 b2 : Bool), s2 = { s with isRunning := b1, isPaused := b2 })
    ∨ (∃ (config : Config) (info : PressureInfo) (d : Decision) (s1 : State) (b : Bool),
        s.config = some config ∧ (s1 = s ∨ s1 = pause s)
        ∧ committedDay attempts random s
            = some { config := config, action := d.action,
                     isWin := decide (random * 100 < config.gambleWinRate) }
        ∧ s2 = { (committedState s1 config info d random).1 with isRunning := b }) := by
  unfold step at h
  by_cases hg : (!s.isRunning || (s.isPaused && s.isWaitingForResume)) = true
  · rw [if_pos hg] at h
    simp only [StepOutcome.done.injEq] at h
    have hday : committedDay attempts random s = none := by
      unfold committedDay; rw [if_pos hg]
    exact Or.inl ⟨hday, s.isRunning, s.isPaused, by rw [← h.2]⟩
  · rw [if_neg hg] at h
    rcases Option.eq_none_or_eq_some s.config with hcfg | ⟨config, hcfg⟩
    · rw [hcfg] at h; exact absurd h (by simp)
    · rw [hcfg] at h
      simp only at h
      by_cases hage : s.currentAge ≥ config.deadlineAge
      · rw [if_pos hage] at h
        simp only [StepOutcome.done.injEq] at h
        have hday : committedDay attempts random s = none := by
          unfold committedDay; rw [if_neg hg, hcfg]; simp only; rw [if_pos hage]
        exact Or.inl ⟨hday, false, s.isPaused, by rw [← h.2, hcfg]⟩
      · rw [if_neg hage] at h
        cases hinfo : calculateRealPressure s with
        | none => rw [hinfo] at h; exact absurd h (by simp)
        | some info =>
          rw [hinfo] at h
          simp only at h
          cases hm : makeAIDecision s attempts with
          | none => rw [hm] at h; exact absurd h (by simp)
          | some p =>
            obtain ⟨o, s1⟩ := p
            have hs1 := makeAIDecision_state attempts s s1 o hm
            cases o with
            | cancelled =>
              rw [hm] at h
              simp only [StepOutcome.done.injEq] at h
              have hday : committedDay attempts random s = none := by
                unfold committedDay
                rw [if_neg hg, hcfg]; simp only
                rw [if_neg hage, hinfo]; simp only
                rw [hm]
              refine Or.inl ⟨hday, ?_⟩
              rcases hs1 with h1 | h1
              · exact ⟨s.isRunning, s.isPaused, by rw [← h.2, h1]⟩
              · exact ⟨s.isRunning, true, by rw [← h.2, h1]; rfl⟩
            | decided d =>
              rw [hm] at h
              simp only [StepOutcome.done.injEq] at h
              have hday : committedDay attempts random s
                  = some { config := config, action := d.action,
                           isWin := decide (random * 100 < config.gambleWinRate) } := by
                unfold committedDay
                rw [if_neg hg, hcfg]; simp only
                rw [if_neg hage, hinfo]; simp only
                rw [hm]
              obtain ⟨b, hb⟩ := commitDay_state s1 config info d random
              exact Or.inr ⟨config, info, d, s1, b, hcfg, hs1, hday, by rw [← h.2, hb]⟩

/-- In a run with whole-number amounts a config with whole-number amounts is
set, and the sums of the state are the replay, with no rounding, of the days
the run has committed, `dayCount` in number, each under a config with
whole-number amounts. -/
theorem wholeTrace_ledger (B : ℕ) (s : State) (days : List DayInput)
    (h : WholeTrace B s days) :
    (∃ config, s.config = some config ∧ WholeAmounts B config)
    ∧ days.length = s.dayCount
    ∧ (∀ d ∈ days, WholeAmounts B d.config)
    ∧ ledgerOf s = runLedgerWith id startLedger days := by
  induction h with
  | start config targets speed hw =>
    exact ⟨⟨config, rfl, hw⟩, rfl, by simp, rfl⟩
  | pause s days _ ih => exact ih
  | resume s s1 config targets days _ hsup hr ih =>
    obtain ⟨⟨old, hold, hwold⟩, hlen, hall, hled⟩ := ih
    obtain ⟨h1, h2, h3, -⟩ := resume_fields s s1 config targets hr
    have hc := resume_config s s1 config targets old hold hr
    refine ⟨⟨_, hc, ?_⟩, by rw [h3]; exact hlen, hall, ?_⟩
    · cases config with
      | none => exact hwold
      | some c => exact wholeAmounts_startAge B c old.startAge (hsup c rfl)
    · rw [← hled]; simp only [ledgerOf, h1, h2]
  | step s s1 attempts random response days _ _ _ hstep ih =>
    obtain ⟨⟨cfg, hcfg, hwcfg⟩, hlen, hall, hled⟩ := ih
    rcases step_committedDay attempts random s s1 response hstep with
      ⟨hday, b1, b2, hs⟩ | ⟨config, info, d, s0, b, hc, hs0, hday, hs⟩
    · rw [hs, hday]
      simp only [Option.toList, List.append_nil]
      exact ⟨⟨cfg, hcfg, hwcfg⟩, hlen, hall, hled⟩
    · have hcc : config = cfg := by
        rw [hcfg] at hc; simp only [Option.some.injEq] at hc; exact hc.symm
      subst hcc
      obtain ⟨g1, -, -, -, g5, -, -⟩ := committedState_fields s0 config info d random
      have e1 : s0.config = s.config := by
        rcases hs0 with h | h
        · rw [h]
        · rw [h]; rfl
      have e2 : s0.dayCount = s.dayCount := by
        rcases hs0 with h | h
        · rw [h]
        · rw [h]; rfl
      have e3 : ledgerOf s0 = ledgerOf s := by
        rcases hs0 with h | h
        · rw [h]
        · rw [h]; rfl
      have hl := ledgerOf_committedState s0 config info d random
      rw [hs, hday]
      simp only [Option.toList]
      refine ⟨⟨config, ?_, hwcfg⟩, ?_, ?_, ?_⟩
      · show (committedState s0 config info d random).1.config = some config
        rw [g1, e1, hcfg]
      · show _ = (committedState s0 config info d random).1.dayCount
        rw [g5, e2, List.length_append, hlen]; rfl
      · intro x hx
        rcases List.mem_append.mp hx with hx | hx
        · exact hall x hx
        · have : x = _ := List.mem_singleton.mp hx
          rw [this]; exact hwcfg
      · show ledgerOf (committedState s0 config info d random).1 = _
        rw [hl, e3, hled, runLedgerWith_snoc]

/-- C17, counterexample. With `workIncome = 0.3` and `dailyCost = 0.1`, three
committed work days, summed in doubles, leave `currentMoney` the double
`0.6`, while `totalIncome - totalExpenses` is `0.5999999999999999`, the
double just below, be the difference exact or formed in doubles. -/
theorem ledger_drifts_in_doubles :
    (runLedgerWith roundDouble startLedger (List.replicate 3 tenthsWorkDay)).currentMoney
      = roundDouble (6 / 10)
    ∧ (runLedgerWith roundDouble startLedger (List.replicate 3 tenthsWorkDay)).currentMoney
      ≠ (runLedgerWith roundDouble startLedger (List.replicate 3 tenthsWorkDay)).totalIncome
        - (runLedgerWith roundDouble startLedger (List.replicate 3 tenthsWorkDay)).totalExpenses
    ∧ roundDouble
        ((runLedgerWith roundDouble startLedger (List.replicate 3 tenthsWorkDay)).totalIncome
        - (runLedgerWith roundDouble startLedger (List.replicate 3 tenthsWorkDay)).totalExpenses)
      = roundDouble (6 / 10) - 1 / 2 ^ 53 := by
  refine ⟨?_, ?_, ?_⟩ <;> decide!

/-- C17, amended. In every state reachable from `start` by any sequence of
`step`, `pause` and `resume` requests (any decisions, any draws of `[0, 1)`)
in which every config supplied has whole-number `workIncome`, `dailyCost`,
`gambleWinAmount` and `gambleLossAmount` of absolute value at most `B`, with
`dayCount * 2 * B < 2 ^ 53`: the run has committed `dayCount` days, the sums
the program forms in doubles over these days, in order, are the sums of the
state, and `currentMoney = stats.totalIncome - stats.totalExpenses`, the
difference being exact in doubles. More generally the sums formed in doubles
over any sequence of committed days under such configs, as many as the bound
allows, satisfy the same equation. -/
theorem money_ledger_invariant (B : ℕ) (s : State) (days : List DayInput)
    (h : WholeTrace B s days) (hbound : (s.dayCount : ℤ) * (2 * B) < 2 ^ 53) :
    days.length = s.dayCount
    ∧ runLedgerWith roundDouble startLedger days = ledgerOf s
    ∧ s.currentMoney = s.stats.totalIncome - s.stats.totalExpenses
    ∧ roundDouble (s.stats.totalIncome - s.stats.totalExpenses) = s.currentMoney
    ∧ ∀ days2 : List DayInput, (∀ d ∈ days2, WholeAmounts B d.config) →
        days2.length ≤ s.dayCount →
        (runLedgerWith roundDouble startLedger days2).currentMoney
          = (runLedgerWith roundDouble startLedger days2).totalIncome
            - (runLedgerWith roundDouble startLedger days2).totalExpenses := by
  obtain ⟨-, hlen, hall, hled⟩ := wholeTrace_ledger B s days h
  obtain ⟨T, E, hd, hx, bT, bE⟩ := runLedger_whole B days hall (by rw [hlen]; exact hbound)
  have hl : ledgerOf s
      = { currentMoney := ((T - E : ℤ) : ℚ), totalIncome := T, totalExpenses := E } := by
    rw [hled, hx]
  have h1 : s.currentMoney = ((T - E : ℤ) : ℚ) := congrArg Ledger.currentMoney hl
  have h2 : s.stats.totalIncome = T := congrArg Ledger.totalIncome hl
  have h3 : s.stats.totalExpenses = E := congrArg Ledger.totalExpenses hl
  have hsub : |T - E| < 2 ^ 53 := by
    rw [hlen] at bT bE
    have bT2 := abs_le.mp bT
    have bE2 := abs_le.mp bE
    rw [abs_lt]
    constructor <;> linarith
  have hr := roundDouble_intCast (T - E) hsub
  refine ⟨hlen, by rw [hd, hled, hx], ?_, ?_, ?_⟩
  · rw [h1, h2, h3]; push_cast; rfl
  · rw [h1, h2, h3, ← hr]; push_cast; rfl
  · intro days2 hall2 hlen2
    have hb2 : (days2.length : ℤ) * (2 * B) < 2 ^ 53 := by
      have hle : (days2.length : ℤ) ≤ s.dayCount := by exact_mod_cast hlen2
      have hB0 : (0 : ℤ) ≤ 2 * B := by positivity
      nlinarith
    obtain ⟨T2, E2, hd2, -, -, -⟩ := runLedger_whole B days2 hall2 hb2
    rw [hd2]; push_cast; rfl

/-- A run of `runDays` from a state of a run with whole-number amounts ends
in a state of that run. -/
theorem runDays_wholeTrace (B : ℕ) (attempt : Attempt) (random : ℚ) (h0 : 0 ≤ random)
    (h1 : random < 1) (n : ℕ) (s s2 : State) (days : List DayInput)
    (hs : WholeTrace B s days) (h : runDays attempt random n s = some s2) :
    ∃ days2, WholeTrace B s2 days2 := by
  induction n generalizing s2 with
  | zero =>
    simp only [runDays, Option.some.injEq] at h
    rw [← h]; exact ⟨days, hs⟩
  | succ n ih =>
    unfold runDays at h
    cases hr : runDays attempt random n s with
    | none => rw [hr] at h; simp at h
    | some s1 =>
      rw [hr] at h
      simp only at h
      cases hstep : step [attempt] random s1 with
      | threw => rw [hstep] at h; simp at h
      | pending => rw [hstep] at h; simp at h
      | done response s3 =>
        rw [hstep] at h
        simp only at h
        split at h
        · simp only [Option.some.injEq] at h
          subst h
          obtain ⟨days1, hd1⟩ := ih s1 hr
          exact ⟨_, WholeTrace.step s1 s3 [attempt] random response days1 hd1 h0 h1 hstep⟩
        · simp at h

/-- C17, amended: witness: ten lost gambles after `start` with the sample
config, whose amounts are whole numbers up to 300. -/
theorem money_ledger_invariant_witness :
    ∃ s days, WholeTrace 300 s days ∧ s.dayCount = 10 ∧ s.currentMoney = -2500
      ∧ s.stats.totalIncome = -2000 ∧ s.stats.totalExpenses = 500
      ∧ days.length = s.dayCount
      ∧ runLedgerWith roundDouble startLedger days = ledgerOf s
      ∧ s.currentMoney = s.stats.totalIncome - s.stats.totalExpenses
      ∧ roundDouble (s.stats.totalIncome - s.stats.totalExpenses) = s.currentMoney
      ∧ runLedgerWith roundDouble startLedger (List.replicate 10 sampleLostDay)
          = { currentMoney := -2500, totalIncome := -2000, totalExpenses := 500 } := by
  have hev : (runDays gambleAttempt (7 / 10) 10 startedHouse).map
      (fun s => (s.dayCount, s.currentMoney, s.stats.totalIncome, s.stats.totalExpenses))
      = some (10, -2500, -2000, 500) := by decide!
  obtain ⟨s, hs, hf⟩ := Option.map_eq_some'.mp hev
  simp only [Prod.mk.injEq] at hf
  have hw : WholeAmounts 300 sampleConfig :=
    ⟨200, 50, 300, 200, by norm_num [sampleConfig], by norm_num [sampleConfig],
      by norm_num [sampleConfig], by norm_num [sampleConfig], by norm_num, by norm_num,
      by norm_num, by norm_num⟩
  obtain ⟨days, hrun⟩ :=
    runDays_wholeTrace 300 gambleAttempt (7 / 10) (by norm_num) (by norm_num) 10 startedHouse s
      [] (WholeTrace.start sampleConfig _ none hw) hs
  obtain ⟨g1, g2, g3, g4, -⟩ :=
    money_ledger_invariant 300 s days hrun (by rw [hf.1]; norm_num)
  exact ⟨s, days, hrun, hf.1, hf.2.1, hf.2.2.1, hf.2.2.2, g1, g2, g3, g4, by decide!⟩

/-! ## The calendar of a run, in the doubles of the program -/

/-- A run of `runDays` from a state of a run with a fixed config ends in a
state of that run. -/
theorem runDays_fixedRun (config : Config) (attempt : Attempt) (random : ℚ) (h0 : 0 ≤ random)
    (h1 : random < 1) (n : ℕ) (s s2 : State) (hs : FixedRun config s)
    (h : runDays attempt random n s = some s2) : FixedRun config s2 := by
  induction n generalizing s2 with
  | zero =>
    simp only [runDays, Option.some.injEq] at h
    rw [← h]; exact hs
  | succ n ih =>
    unfold runDays at h
    cases hr : runDays attempt random n s with
    | none => rw [hr] at h; simp at h
    | some s1 =>
      rw [hr] at h
      simp only at h
      cases hstep : step [attempt] random s1 with
      | threw => rw [hstep] at h; simp at h
      | pending => rw [hstep] at h; simp at h
      | done response s3 =>
        rw [hstep] at h
        simp only at h
        split at h
        · simp only [Option.some.injEq] at h
          subst h
          exact FixedRun.step s1 s3 [attempt] random response (ih s1 hr) h0 h1 hstep
        · simp at h

/-- From a whole-number start age the yearly increments are exact in
doubles. -/
theorem ageAfterYears_whole (A : ℤ) (m k : ℕ) (hk : k ≤ m) (hb : |A| + m < 2 ^ 53) :
    ageAfterYears roundDouble (A : ℚ) k = (A : ℚ) + k := by
  induction k with
  | zero => simp [ageAfterYears]
  | succ k ih =>
    have hlt : |A + ((k : ℤ) + 1)| < 2 ^ 53 := by
      have h1 := abs_add A ((k : ℤ) + 1)
      have h2 : |((k : ℤ) + 1)| = (k : ℤ) + 1 := abs_of_nonneg (by omega)
      omega
    have := roundDouble_intCast (A + ((k : ℤ) + 1)) hlt
    push_cast at this
    simp only [ageAfterYears]
    rw [ih (by omega)]
    push_cast
    rw [← this]
    congr 1
    ring

theorem fixedRun_runState (config : Config) (s : State) (h : FixedRun config s) :
    RunState s := by
  induction h with
  | start targets speed => exact RunState.start config targets speed
  | pause s _ ih => exact RunState.pause s ih
  | resume s s1 targets _ hr ih => exact RunState.resume s s1 none targets ih hr
  | step s s1 attempts random response _ h0 h1 hstep ih =>
    exact RunState.step s s1 attempts random response ih h0 h1 hstep

theorem fixedRun_config (config : Config) (s : State) (h : FixedRun config s) :
    s.config = some config := by
  induction h with
  | start targets speed => rfl
  | pause s _ ih => exact ih
  | resume s s1 targets _ hr ih => exact resume_config s s1 none targets config ih hr
  | step s s1 attempts random response _ _ _ hstep ih =>
    rcases step_state_cases attempts random s s1 response hstep with
      ⟨b1, b2, hs⟩ | ⟨cfg, info, d, s0, b, -, hs0, hs⟩
    · rw [hs]; exact ih
    · obtain ⟨g1, -⟩ := committedState_fields s0 cfg info d random
      rw [hs]
      show (committedState s0 cfg info d random).1.config = some config
      rw [g1]
      rcases hs0 with h | h
      · rw [h]; exact ih
      · rw [h]; exact ih

/-- While the config is not replaced and the deadline is a whole number `N`
of years after the start age, no more than `365 * N` days are committed. -/
theorem fixedRun_dayCount_le (config : Config) (N : ℕ)
    (hN : config.deadlineAge - config.startAge = N) (s : State) (h : FixedRun config s) :
    s.dayCount ≤ 365 * N := by
  induction h with
  | start targets speed => simp [start, resetState]
  | pause s _ ih => exact ih
  | resume s s1 targets _ hr ih =>
    obtain ⟨-, -, h3, -⟩ := resume_fields s s1 none targets hr
    rw [h3]; exact ih
  | step s s1 attempts random response hfix _ _ hstep ih =>
    rcases step_done_cases attempts random s s1 response hstep with
      ⟨-, hs, -⟩ | ⟨cfg, -, -, -, -, hs⟩ | ⟨cfg, -, -, -, -, hs⟩
      | ⟨cfg, info, d, s0, hcfg, -, hage, -, -, hs0, -, hs2⟩
    · rw [hs]; exact ih
    · rw [hs]; exact ih
    · rw [hs]; exact ih
    · have hc := fixedRun_config config s hfix
      rw [hc] at hcfg
      simp only [Option.some.injEq] at hcfg
      subst hcfg
      obtain ⟨cfg2, k, hcfg2, hk, hd1, hd2, hcount⟩ :=
        runState_calendar s (fixedRun_runState config s hfix)
      rw [hc] at hcfg2
      simp only [Option.some.injEq] at hcfg2
      subst hcfg2
      have hdl : config.deadlineAge = config.startAge + N := by linarith
      rw [hk, hdl] at hage
      have hkN : (k : ℚ) < N := by linarith
      have hkN2 : k < N := by exact_mod_cast hkN
      obtain ⟨b, hb⟩ := commitDay_state s0 config info d random
      obtain ⟨-, -, -, -, g5, -⟩ := committedState_fields s0 config info d random
      have e : s0.dayCount = s.dayCount := by
        rcases hs0 with h | h
        · rw [h]
        · rw [h]; rfl
      rw [hs2, hb]
      show (committedState s0 config info d random).1.dayCount ≤ 365 * N
      rw [g5, e]
      omega

/-- C18, counterexample. With start age 20 and deadline age 20.5,
`365 * (deadlineAge - startAge)` is `182.5`; yet after 183 committed days the run is
still running and the next `step` commits a further day, and `step` first
reports the timeout after 365 committed days. And with a start age that is
not a whole number the yearly increments round: from `20.2`, twelve year ends
leave an age that exceeds the start age by `12 + 2^-48`, not by 12; from
`18.02`, thirty-two year ends leave an age still below the deadline age
`50.02`, which is reached at the thirty-third. -/
theorem timeout_waits_for_year_end :
    (∃ s, RunState s ∧ s.config = some halfYearConfig ∧ s.dayCount = 183
      ∧ 365 * (halfYearConfig.deadlineAge - halfYearConfig.startAge) < (s.dayCount : ℚ)
      ∧ s.isRunning = true
      ∧ (step [workAttempt] 0 s).response.map StepResponse.committed = some true)
    ∧ (∃ s, RunState s ∧ s.config = some halfYearConfig ∧ s.dayCount = 365
      ∧ (step [workAttempt] 0 s).response = some (StepResponse.finished "timeout"))
    ∧ ageAfterYears roundDouble (roundDouble (101 / 5)) 12 - roundDouble (101 / 5)
        = 12 + 1 / 2 ^ 48
    ∧ ageAfterYears roundDouble (roundDouble (901 / 50)) 32 < roundDouble (2501 / 50)
    ∧ roundDouble (2501 / 50) ≤ ageAfterYears roundDouble (roundDouble (901 / 50)) 33 := by
  refine ⟨?_, ?_, by decide!, by decide!, by decide!⟩
  · have hev : (runDays workAttempt 0 183 startedHalf).map
        (fun s => (s.config, s.dayCount, s.isRunning,
          (step [workAttempt] 0 s).response.map StepResponse.committed))
        = some (some halfYearConfig, 183, true, some true) := by decide!
    obtain ⟨s, hs, hf⟩ := Option.map_eq_some'.mp hev
    simp only [Prod.mk.injEq] at hf
    have hrun : RunState s :=
      runDays_runState workAttempt 0 (le_refl 0) (by norm_num) 183 startedHalf s
        (RunState.start halfYearConfig _ none) hs
    refine ⟨s, hrun, hf.1, hf.2.1, ?_, hf.2.2.1, hf.2.2.2⟩
    rw [hf.2.1]; norm_num [halfYearConfig, sampleConfig]
  · have hev : (runDays workAttempt 0 365 startedHalf).map
        (fun s => (s.config, s.dayCount, (step [workAttempt] 0 s).response))
        = some (some halfYearConfig, 365, some (StepResponse.finished "timeout")) := by decide!
    obtain ⟨s, hs, hf⟩ := Option.map_eq_some'.mp hev
    simp only [Prod.mk.injEq] at hf
    have hrun : RunState s :=
      runDays_runState workAttempt 0 (le_refl 0) (by norm_num) 365 startedHalf s
        (RunState.start halfYearConfig _ none) hs
    exact ⟨s, hrun, hf.1, hf.2.1, hf.2.2⟩

/-- C18, amended. For a run whose start age is a whole number `A`, with
`|A| + dayCount < 2 ^ 53`: in every state reachable from `start` by any
sequence of `step`, `pause` and `resume` requests,
`1 <= currentDayInYear <= 365`, the age is the age the program reaches in
doubles after the year ends of the run, and
`dayCount = (currentAge - config.startAge) * 365 + (currentDayInYear - 1)`.
When moreover the config is not replaced and `deadlineAge - startAge` is a
whole number `N` of years, `dayCount` never exceeds `365 * N` and a `step`
that passes the rejection guard reports the timeout exactly when
`dayCount = 365 * N`: so exactly `365 * (deadlineAge - startAge)` days can be
committed before `step` reports the timeout. -/
theorem calendar_invariant (s : State) (config : Config) (A : ℤ) (h : RunState s)
    (hcfg : s.config = some config) (hA : config.startAge = A)
    (hbound : |A| + s.dayCount < 2 ^ 53) :
    1 ≤ s.currentDayInYear ∧ s.currentDayInYear ≤ 365
    ∧ (∃ k : ℕ, s.dayCount + 1 = 365 * k + s.currentDayInYear
        ∧ s.currentAge = ageAfterYears roundDouble config.startAge k)
    ∧ (s.dayCount : ℚ)
        = (s.currentAge - config.startAge) * 365 + ((s.currentDayInYear : ℚ) - 1)
    ∧ ∀ N : ℕ, config.deadlineAge - config.startAge = N → FixedRun config s →
        s.dayCount ≤ 365 * N
        ∧ ∀ (attempts : List Attempt) (random : ℚ), s.isRunning = true →
            ¬ (s.isPaused = true ∧ s.isWaitingForResume = true) →
            ((step attempts random s).response = some (StepResponse.finished "timeout")
              ↔ s.dayCount = 365 * N) := by
  obtain ⟨config2, k, hcfg2, hage, hd1, hd2, hcount⟩ := runState_calendar s h
  rw [hcfg] at hcfg2
  simp only [Option.some.injEq] at hcfg2
  subst hcfg2
  have hq : ((s.dayCount : ℚ) + 1) = 365 * (k : ℚ) + (s.currentDayInYear : ℚ) := by
    exact_mod_cast hcount
  refine ⟨hd1, hd2, ⟨k, hcount, ?_⟩, by rw [hage]; linarith, fun N hN hfix => ?_⟩
  · rw [hage, hA, ageAfterYears_whole A s.dayCount k (by omega) hbound]
  · have hle := fixedRun_dayCount_le config N hN s hfix
    have hiff : s.currentAge ≥ config.deadlineAge ↔ s.dayCount = 365 * N := by
      have hdl : config.deadlineAge = config.startAge + N := by linarith
      rw [hage, hdl]
      constructor
      · intro hge
        have hk : (N : ℚ) ≤ k := by linarith
        have hk2 : N ≤ k := by exact_mod_cast hk
        omega
      · intro heq
        have hk2 : N ≤ k := by omega
        have hk : (N : ℚ) ≤ k := by exact_mod_cast hk2
        linarith
    refine ⟨hle, fun attempts random hrun hwait => ?_⟩
    constructor
    · intro hresp
      exact hiff.mp (step_timeout_inv attempts random s config hcfg hresp)
    · intro heq
      rw [step_timeout_branch attempts random s config hrun hwait hcfg (hiff.mpr heq)]
      rfl

/-- C18, amended: witness: the run of one year, from age 20 to the deadline
age 21: after 365 committed days the age is 21 on day 1, and `step` reports
the timeout. -/
theorem calendar_invariant_witness :
    ∃ s, FixedRun oneYearConfig s ∧ s.config = some oneYearConfig
      ∧ s.dayCount = 365 ∧ s.currentAge = 21 ∧ s.currentDayInYear = 1
      ∧ (s.dayCount : ℚ)
          = (s.currentAge - oneYearConfig.startAge) * 365 + ((s.currentDayInYear : ℚ) - 1)
      ∧ s.dayCount ≤ 365 * 1
      ∧ (step [workAttempt] 0 s).response = some (StepResponse.finished "timeout") := by
  have hev : (runDays workAttempt 0 365 startedOneYear).map
      (fun s => (s.dayCount, s.currentAge, s.currentDayInYear, s.isRunning, s.isPaused))
      = some (365, 21, 1, true, false) := by decide!
  obtain ⟨s, hs, hf⟩ := Option.map_eq_some'.mp hev
  simp only [Prod.mk.injEq] at hf
  have hfix : FixedRun oneYearConfig s :=
    runDays_fixedRun oneYearConfig workAttempt 0 (le_refl 0) (by norm_num) 365 startedOneYear s
      (FixedRun.start _ none) hs
  have hcfg := fixedRun_config oneYearConfig s hfix
  obtain ⟨-, -, -, heq, hN⟩ :=
    calendar_invariant s oneYearConfig 20 (fixedRun_runState oneYearConfig s hfix) hcfg
      (by norm_num [oneYearConfig, sampleConfig]) (by rw [hf.1]; norm_num)
  obtain ⟨hle, hstep⟩ := hN 1 (by norm_num [oneYearConfig, sampleConfig]) hfix
  refine ⟨s, hfix, hcfg, hf.1, hf.2.1, hf.2.2.1, heq, hle, ?_⟩
  exact (hstep [workAttempt] 0 hf.2.2.2.1 (by rw [hf.2.2.2.2]; simp)).mpr (by rw [hf.1])

end LifeSimulator
